import Mathlib

/-
Verification development for the `tinyresolver` iterative DNS resolver.

The development shallowly embeds the program's cache (`cache.go`) and the
resolution engine (`resolver.go`) into Lean.  The repository carries several
historical revisions of both files concatenated; the embedding follows the
newest revision of each (the cache that stores absolute expiry instants, and
the resolver with the loop threshold 4, the `NS` post-processing, and the
IPv4-literal check), and the line numbers cited below refer to it.

* machine time (`time.Time`) is modelled as a natural number of nanoseconds
  and is passed explicitly where the source calls `time.Now()`;
* `dns.RR` is modelled as a record `(name, type, ttl, rdata)` where `rdata`
  holds the textual RDATA exactly as `miekg/dns` renders it (the target name
  for `NS`/`CNAME`, the dotted quad for `A`, `"pref exchange"` for `MX`,
  the space-separated SOA fields for `SOA`);
* Go string primitives (`strings.Split`, `strings.Contains`,
  `strings.ToLower`, `dns.Fqdn`) are re-implemented over the character
  lists of Lean strings so that every definition evaluates by `decide`;
* the network and the random shuffle are oracle parameters, and the
  concurrent fan-out of `queryMultiple` is modelled by running the spawned
  tasks sequentially and parameterising the reply-arrival order.
-/

namespace Tinyresolver

/-! ## String helpers (Go `strings` / `dns` package primitives) -/

/-- Models `strings.ToLower`. -/
def toLowerStr (s : String) : String := String.mk (s.data.map Char.toLower)

/-- True when the string ends with a dot. -/
def strEndsWithDot (s : String) : Bool := s.data.getLast? == some '.'

/-- Models `dns.Fqdn`: append a trailing dot when missing. -/
def Fqdn (s : String) : String := if strEndsWithDot s then s else s ++ "."

/-- Models `toLowerFQDN` from `resolver.go`: `dns.Fqdn(strings.ToLower(name))`. -/
def toLowerFQDN (s : String) : String := Fqdn (toLowerStr s)

/-- Split a character list at every occurrence of `sep`; `n` separators give
`n+1` fields, like Go `strings.Split` with a one-character separator. -/
def splitCharAux (sep : Char) : List Char → List (List Char)
  | [] => [[]]
  | c :: rest =>
    match splitCharAux sep rest with
    | [] => [[]]
    | f :: fs => if c = sep then [] :: f :: fs else (c :: f) :: fs

/-- Models Go `strings.Split s (String.singleton sep)`. -/
def splitChar (sep : Char) (s : String) : List String :=
  (splitCharAux sep s.data).map String.mk

/-- Substring test on character lists. -/
def isInfixChars : List Char → List Char → Bool
  | sub, [] => sub.isEmpty
  | sub, a :: as => sub.isPrefixOf (a :: as) || isInfixChars sub as

/-- Models `strings.Contains s sub`. -/
def containsStr (s sub : String) : Bool := isInfixChars sub.data s.data

/-! ## DNS record model -/

/-- Numeric code of the `A` type (`dns.TypeA`). -/
def typeA : Nat := 1

/-- Numeric code of the `NS` type (`dns.TypeNS`). -/
def typeNS : Nat := 2

/-- Numeric code of the `CNAME` type (`dns.TypeCNAME`). -/
def typeCNAME : Nat := 5

/-- Numeric code of the `SOA` type (`dns.TypeSOA`). -/
def typeSOA : Nat := 6

/-- Numeric code of the `PTR` type (`dns.TypePTR`). -/
def typePTR : Nat := 12

/-- Numeric code of the `MX` type (`dns.TypeMX`). -/
def typeMX : Nat := 15

/-- Models the `dns.StringToType` map on the mnemonics this program uses; a
string outside the map yields the Go zero value `0`. -/
def StringToType (s : String) : Nat :=
  if s = "A" then typeA
  else if s = "NS" then typeNS
  else if s = "CNAME" then typeCNAME
  else if s = "SOA" then typeSOA
  else if s = "PTR" then typePTR
  else if s = "MX" then typeMX
  else 0

/-- Models the `dns.TypeToString` map (unknown codes render RFC 3597 style). -/
def typeToString (t : Nat) : String :=
  if t = typeA then "A"
  else if t = typeNS then "NS"
  else if t = typeCNAME then "CNAME"
  else if t = typeSOA then "SOA"
  else if t = typePTR then "PTR"
  else if t = typeMX then "MX"
  else "TYPE" ++ Nat.repr t

/-- Model of `dns.RR`: the header name, numeric type, TTL (seconds) and the
rendered RDATA.  The class is always `IN` and is kept implicit. -/
structure RR where
  name : String
  rrtype : Nat
  ttl : Nat
  rdata : String
deriving Repr, DecidableEq

/-- Models `rr.String()`: the tab-separated presentation
`name<TAB>ttl<TAB>class<TAB>type<TAB>rdata` (class always `IN`). -/
def rrString (r : RR) : String :=
  r.name ++ "\t" ++ Nat.repr r.ttl ++ "\tIN\t" ++ typeToString r.rrtype ++ "\t" ++ r.rdata

/-- Dedup identity of a record, `removeSliceString(strings.Split(rr.String(), "\t"), 1)`
in `cache.addRR`: the presentation fields with the TTL removed.  For the records
`miekg/dns` renders (names and RDATA never contain a raw tab: presentation
format escapes control characters) this is the tuple `(name, class, type, rdata)`;
the class is constant and the type mnemonic is determined by the numeric type,
so the identity is the `(name, type, rdata)` triple. -/
def rrKey (r : RR) : String × Nat × String := (r.name, r.rrtype, r.rdata)

/-- Models `removeSliceString` from `cache.go` (drop the element at index `s`). -/
def removeSliceString (slice : List String) (s : Nat) : List String :=
  slice.take s ++ slice.drop (s + 1)

/-! ## Record-list searches from `resolver.go` -/

/-- Models `findNS`: the RDATA of every `NS` record (field 4 of the rendered
record) together with the MNAME (first space-separated word of the RDATA) of
every `SOA` record. -/
def findNS (rrs : List RR) : List String :=
  rrs.flatMap (fun rr =>
    (if rr.rrtype = typeNS then [rr.rdata] else []) ++
    (if rr.rrtype = typeSOA then [(splitChar ' ' rr.rdata).headD ""] else []))

/-- Models `findMX`: the exchange (second space-separated word of the RDATA)
of every `MX` record. -/
def findMX (rrs : List RR) : List String :=
  rrs.filterMap (fun rr =>
    if rr.rrtype = typeMX then some ((splitChar ' ' rr.rdata).getD 1 "") else none)

/-- Models `findA`: the RDATA (the address) of every `A` record. -/
def findA (rrs : List RR) : List String :=
  rrs.filterMap (fun rr => if rr.rrtype = typeA then some rr.rdata else none)

/-- Models `findCNAME`: the RDATA (the target) of every `CNAME` record. -/
def findCNAME (rrs : List RR) : List String :=
  rrs.filterMap (fun rr => if rr.rrtype = typeCNAME then some rr.rdata else none)

/-- Models `findNameOfA`: the owner name (field 0 of the rendered record) of
every `A` record. -/
def findNameOfA (rrs : List RR) : List String :=
  rrs.filterMap (fun rr => if rr.rrtype = typeA then some rr.name else none)

/-- Models `parent`: strip the leftmost label; `dns.SplitDomainName` returns
nil exactly for the root name (empty string or `"."`), in which case there is
no parent. -/
def parent (name : String) : Option String :=
  let labels := (splitCharAux '.' name.data).filter (fun l => !l.isEmpty)
  match labels with
  | [] => none
  | _ :: rest => some (toLowerFQDN (String.mk (List.intercalate ['.'] rest)))

/-! ## The cache (`cache.go`, current revision) -/

/-- One nanosecond count per second (`time.Second`). -/
def second : Nat := 1000000000

/-- Models the `uint32` conversion applied to the relative TTL on read. -/
def u32 (n : Nat) : Nat := n % 4294967296

/-- Models `rrDetails`: a stored record with its absolute expiry instant. -/
structure rrDetails where
  rr : RR
  expires : Nat
deriving Repr, DecidableEq

/-- Models the `cache` struct: the list of stored entries (the lock is
irrelevant in the sequential model). -/
structure cache where
  rrs : List rrDetails
deriving Repr, DecidableEq

/-- The empty cache. -/
def cacheEmpty : cache := ⟨[]⟩

/-- Canonicalisation performed at the top of `cache.addRR`: the header name is
lowercased and fully qualified, and for an `NS` record so is the target held in
the RDATA. -/
def canonRR (r : RR) : RR :=
  let r1 : RR := { r with name := toLowerFQDN r.name }
  if r1.rrtype = typeNS then { r1 with rdata := toLowerFQDN r1.rdata } else r1

/-- The scan-and-update loop of `cache.addRR`: walk the stored entries; at the
first entry whose dedup key equals the new record's, extend the expiry to
`now + ttl` when that is later (`newExpire.After(cachedrr.expires)`) and stop;
when no entry matches, append a fresh entry with expiry `now + ttl`. -/
def updateRRs (rrs : List rrDetails) (rr : RR) (now : Nat) : List rrDetails :=
  match rrs with
  | [] => [⟨rr, now + rr.ttl * second⟩]
  | d :: rest =>
    if rrKey rr = rrKey d.rr then
      (if now + rr.ttl * second > d.expires
        then { d with expires := now + rr.ttl * second } else d) :: rest
    else d :: updateRRs rest rr now

/-- Models `cache.addRR` (`now` stands for the `time.Now()` calls in the body). -/
def cache.addRR (c : cache) (now : Nat) (rr : RR) : cache :=
  ⟨updateRRs c.rrs (canonRR rr) now⟩

/-- The three RR sections of a `dns.Msg` reply. -/
structure Msg where
  answer : List RR := []
  ns : List RR := []
  extra : List RR := []
deriving Repr, DecidableEq

/-- Models `cache.addMsg`: add every record of the `Ns`, `Answer` and `Extra`
sections, in that order; a nil message is a no-op. -/
def cache.addMsg (c : cache) (now : Nat) (rmsg : Option Msg) : cache :=
  match rmsg with
  | none => c
  | some m =>
    let c1 := m.ns.foldl (fun acc rr => acc.addRR now rr) c
    let c2 := m.answer.foldl (fun acc rr => acc.addRR now rr) c1
    m.extra.foldl (fun acc rr => acc.addRR now rr) c2

/-- The answer-section scan of `cache.get`: every stored entry whose type and
(canonicalised) name match and whose expiry is strictly in the future
(`now.Before(rr.expires)`), returned as a copy (`dns.Copy`) whose TTL field is
rewritten to the whole-second remainder `uint32(rr.expires.Sub(now) / time.Second)`. -/
def cacheAnswer (rrs : List rrDetails) (now : Nat) (qname : String) (dtype : Nat) : List RR :=
  rrs.filterMap (fun d =>
    if d.rr.rrtype = dtype ∧ d.rr.name = qname ∧ now < d.expires then
      some { d.rr with ttl := u32 ((d.expires - now) / second) }
    else none)

/-- The answer section computed by `cache.get` for a query, after the
canonicalisation `qname = toLowerFQDN(qname)` and `dtype = dns.StringToType[qtype]`. -/
def cache.getAnswer (c : cache) (now : Nat) (qname qtype : String) : List RR :=
  cacheAnswer c.rrs now (toLowerFQDN qname) (StringToType qtype)

/-- Models `cache.get`.  The body populates the answer section, returns at once
when it is empty, and otherwise runs the glue switch: for `MX`, `NS` and
`CNAME` queries the targets extracted from the answer are looked up as `A`
queries (recursive `c.get(target, "A")` calls, whose answer section is exactly
`cache.getAnswer` because an `A` query skips the switch) and the resulting
answers are appended to the `Extra` section. -/
def cache.get (c : cache) (now : Nat) (qname qtype : String) : Msg :=
  let ans := c.getAnswer now qname qtype
  if ans.isEmpty then { answer := ans }
  else if qtype = "MX" then
    { answer := ans,
      extra := (findMX ans).flatMap (fun mx => c.getAnswer now mx "A") }
  else if qtype = "NS" then
    { answer := ans,
      extra := (findNS ans).flatMap (fun ns => c.getAnswer now ns "A") }
  else if qtype = "CNAME" then
    { answer := ans,
      extra := (findCNAME ans).flatMap (fun cn => c.getAnswer now cn "A") }
  else { answer := ans }

/-- State-passing form of `cache.get`, which threads the entry list through the
call: the source reads `c.rrs` under the lock, builds the reply from `dns.Copy`
copies (the rewritten TTL is set on the copy `res`, never on the stored record)
and performs no assignment to `c.rrs` or to any stored entry, so the resulting
cache is the input cache. -/
def cache.getS (c : cache) (now : Nat) (qname qtype : String) : Msg × cache :=
  (c.get now qname qtype, c)

/-- The glue-target extraction of the `switch qtype` statement in `cache.get`. -/
def glueTargets (qtype : String) (answer : List RR) : List String :=
  if qtype = "MX" then findMX answer
  else if qtype = "NS" then findNS answer
  else if qtype = "CNAME" then findCNAME answer
  else []

/-- A cache-mutating operation: `addRR` (insert_rr) or `addMsg` (insert_message). -/
inductive CacheOp where
  | insertRR (now : Nat) (rr : RR)
  | insertMsg (now : Nat) (rmsg : Option Msg)

/-- Apply one cache operation. -/
def applyOp (c : cache) : CacheOp → cache
  | .insertRR now rr => c.addRR now rr
  | .insertMsg now rmsg => c.addMsg now rmsg

/-- Apply a sequence of cache operations in order. -/
def applyOps (c : cache) (ops : List CacheOp) : cache := ops.foldl applyOp c

/-- The dedup keys of the stored entries, in storage order. -/
def keysOf (rrs : List rrDetails) : List (String × Nat × String) :=
  rrs.map (fun d => rrKey d.rr)

/-- The no-duplicates invariant: no two stored entries share a `(name, type, rdata)` key. -/
def cacheWF (c : cache) : Prop := (keysOf c.rrs).Nodup

/-! ## Basic lemmas about the cache operations -/

theorem canonRR_ttl (r : RR) : (canonRR r).ttl = r.ttl := by
  unfold canonRR; dsimp only; split <;> rfl

theorem canonRR_name (r : RR) : (canonRR r).name = toLowerFQDN r.name := by
  unfold canonRR; dsimp only; split <;> rfl

theorem canonRR_rrtype (r : RR) : (canonRR r).rrtype = r.rrtype := by
  unfold canonRR; dsimp only; split <;> rfl

theorem rrKey_ttl_update (r : RR) (t : Nat) : rrKey { r with ttl := t } = rrKey r := rfl

theorem canonRR_ttl_update (r : RR) (t : Nat) :
    canonRR { r with ttl := t } = { canonRR r with ttl := t } := by
  unfold canonRR
  by_cases h : r.rrtype = typeNS <;> simp [h]

/-- When no stored entry matches the key, `addRR`'s scan appends a fresh entry. -/
theorem updateRRs_notFound (rrs : List rrDetails) (rr : RR) (now : Nat)
    (h : ∀ d ∈ rrs, rrKey d.rr ≠ rrKey rr) :
    updateRRs rrs rr now = rrs ++ [⟨rr, now + rr.ttl * second⟩] := by
  induction rrs with
  | nil => rfl
  | cons d rest ih =>
    have hd : ¬ rrKey rr = rrKey d.rr := fun he => (h d (by simp)) he.symm
    simp only [updateRRs, if_neg hd, List.cons_append, List.cons.injEq, true_and]
    exact ih (fun e he => h e (by simp [he]))

/-- When the first matching entry is `d`, `addRR`'s scan extends its expiry to
the maximum of the stored expiry and `now + ttl` and leaves all else unchanged. -/
theorem updateRRs_found (l1 : List rrDetails) (d : rrDetails) (l2 : List rrDetails)
    (rr : RR) (now : Nat) (hd : rrKey rr = rrKey d.rr)
    (hl1 : ∀ e ∈ l1, rrKey e.rr ≠ rrKey rr) :
    updateRRs (l1 ++ d :: l2) rr now
      = l1 ++ { d with expires := max d.expires (now + rr.ttl * second) } :: l2 := by
  induction l1 with
  | nil =>
    simp only [List.nil_append, updateRRs, if_pos hd]
    by_cases h : now + rr.ttl * second > d.expires
    · have hmax : max d.expires (now + rr.ttl * second) = now + rr.ttl * second := by omega
      simp [h, hmax]
    · have hmax : max d.expires (now + rr.ttl * second) = d.expires := by omega
      simp [h, hmax]
  | cons e l1 ih =>
    have he : ¬ rrKey rr = rrKey e.rr := fun h => (hl1 e (by simp)) h.symm
    simp only [List.cons_append, updateRRs, if_neg he, List.cons.injEq, true_and]
    exact ih (fun x hx => hl1 x (by simp [hx]))

/-- The key list after the scan: unchanged when the key is present, extended by
the new key otherwise. -/
theorem keysOf_updateRRs (rrs : List rrDetails) (rr : RR) (now : Nat) :
    keysOf (updateRRs rrs rr now)
      = if (∃ d ∈ rrs, rrKey d.rr = rrKey rr) then keysOf rrs
        else keysOf rrs ++ [rrKey rr] := by
  induction rrs with
  | nil => simp [updateRRs, keysOf]
  | cons d rest ih =>
    by_cases hd : rrKey rr = rrKey d.rr
    · have hex : ∃ e ∈ d :: rest, rrKey e.rr = rrKey rr := ⟨d, by simp, hd.symm⟩
      simp only [updateRRs, if_pos hd, if_pos hex, keysOf, List.map_cons]
      split <;> rfl
    · have hiff : (∃ e ∈ d :: rest, rrKey e.rr = rrKey rr)
          ↔ (∃ e ∈ rest, rrKey e.rr = rrKey rr) := by
        simp only [List.mem_cons]
        constructor
        · rintro ⟨e, he | he, hk⟩
          · exact absurd (he ▸ hk).symm hd
          · exact ⟨e, he, hk⟩
        · rintro ⟨e, he, hk⟩; exact ⟨e, Or.inr he, hk⟩
      simp only [updateRRs, if_neg hd, keysOf, List.map_cons] at *
      rw [ih]
      by_cases hex : ∃ e ∈ rest, rrKey e.rr = rrKey rr
      · rw [if_pos hex, if_pos (hiff.mpr hex)]
      · rw [if_neg hex, if_neg (fun h => hex (hiff.mp h))]
        simp

/-- The scan never removes an entry, and adds one only when the key is absent. -/
theorem length_updateRRs_found (rrs : List rrDetails) (rr : RR) (now : Nat)
    (h : ∃ d ∈ rrs, rrKey d.rr = rrKey rr) :
    (updateRRs rrs rr now).length = rrs.length := by
  have hk := keysOf_updateRRs rrs rr now
  rw [if_pos h] at hk
  have h1 : (keysOf (updateRRs rrs rr now)).length = (keysOf rrs).length := by rw [hk]
  simpa [keysOf] using h1

/-- Inserting a record preserves the no-duplicate-keys invariant. -/
theorem cacheWF_addRR (c : cache) (now : Nat) (rr : RR) (h : cacheWF c) :
    cacheWF (c.addRR now rr) := by
  unfold cacheWF cache.addRR
  rw [keysOf_updateRRs]
  by_cases hex : ∃ d ∈ c.rrs, rrKey d.rr = rrKey (canonRR rr)
  · rw [if_pos hex]; exact h
  · rw [if_neg hex]
    refine (List.perm_append_singleton _ _).nodup_iff.mpr (List.nodup_cons.mpr ⟨?_, h⟩)
    intro hmem
    rcases List.mem_map.mp hmem with ⟨d, hd, hk⟩
    exact hex ⟨d, hd, hk⟩

theorem cacheWF_foldl (l : List RR) (now : Nat) :
    ∀ c : cache, cacheWF c → cacheWF (l.foldl (fun acc rr => acc.addRR now rr) c) := by
  induction l with
  | nil => intro c h; exact h
  | cons r rest ih => intro c h; exact ih _ (cacheWF_addRR c now r h)

theorem cacheWF_addMsg (c : cache) (now : Nat) (rmsg : Option Msg) (h : cacheWF c) :
    cacheWF (c.addMsg now rmsg) := by
  cases rmsg with
  | none => exact h
  | some m =>
    exact cacheWF_foldl m.extra now _
      (cacheWF_foldl m.answer now _ (cacheWF_foldl m.ns now _ h))

theorem cacheWF_applyOps : ∀ (ops : List CacheOp) (c : cache), cacheWF c →
    cacheWF (applyOps c ops) := by
  intro ops
  induction ops with
  | nil => intro c h; exact h
  | cons op rest ih =>
    intro c h
    cases op with
    | insertRR now rr => exact ih _ (cacheWF_addRR c now rr h)
    | insertMsg now m => exact ih _ (cacheWF_addMsg c now m h)

/-! ## Basic lemmas about `cache.get` -/

/-- Membership in the answer-section scan. -/
theorem mem_cacheAnswer (rrs : List rrDetails) (now : Nat) (qname : String) (dtype : Nat)
    (r : RR) :
    r ∈ cacheAnswer rrs now qname dtype ↔
      ∃ d ∈ rrs, d.rr.rrtype = dtype ∧ d.rr.name = qname ∧ now < d.expires ∧
        r = { d.rr with ttl := u32 ((d.expires - now) / second) } := by
  unfold cacheAnswer
  rw [List.mem_filterMap]
  constructor
  · rintro ⟨d, hd, hf⟩
    by_cases hc : d.rr.rrtype = dtype ∧ d.rr.name = qname ∧ now < d.expires
    · rw [if_pos hc] at hf
      exact ⟨d, hd, hc.1, hc.2.1, hc.2.2, (Option.some.inj hf).symm⟩
    · rw [if_neg hc] at hf; cases hf
  · rintro ⟨d, hd, h1, h2, h3, rfl⟩
    exact ⟨d, hd, if_pos ⟨h1, h2, h3⟩⟩

/-- Every branch of `cache.get` returns the scanned answer section. -/
theorem get_answer_eq (c : cache) (now : Nat) (qname qtype : String) :
    (c.get now qname qtype).answer = c.getAnswer now qname qtype := by
  unfold cache.get
  dsimp only
  split
  · rfl
  · split
    · rfl
    · split
      · rfl
      · split <;> rfl

/-- The extra section of `cache.get` is the concatenation of the `A` answers of
the glue targets when the answer is non-empty. -/
theorem get_extra_eq (c : cache) (now : Nat) (qname qtype : String)
    (h : ¬ (c.getAnswer now qname qtype).isEmpty = true) :
    (c.get now qname qtype).extra
      = (glueTargets qtype (c.getAnswer now qname qtype)).flatMap
          (fun t => c.getAnswer now t "A") := by
  unfold cache.get glueTargets
  dsimp only
  rw [if_neg h]
  by_cases h1 : qtype = "MX"
  · simp [h1]
  · rw [if_neg h1, if_neg h1]
    by_cases h2 : qtype = "NS"
    · simp [h2]
    · rw [if_neg h2, if_neg h2]
      by_cases h3 : qtype = "CNAME"
      · simp [h3]
      · rw [if_neg h3, if_neg h3]; rfl

/-- The extra section is empty when the answer section is empty. -/
theorem get_extra_empty (c : cache) (now : Nat) (qname qtype : String)
    (h : (c.getAnswer now qname qtype).isEmpty = true) :
    (c.get now qname qtype).extra = [] := by
  unfold cache.get
  dsimp only
  rw [if_pos h]

/-- An `A` query never populates the extra section (the glue switch has no
`"A"` case), which makes the glue enrichment single-level. -/
theorem getA_extra_empty (c : cache) (now : Nat) (qname : String) :
    (c.get now qname "A").extra = [] := by
  by_cases h : (c.getAnswer now qname "A").isEmpty = true
  · exact get_extra_empty c now qname "A" h
  · rw [get_extra_eq c now qname "A" h]
    have h1 : ¬ ("A" : String) = "MX" := by decide
    have h2 : ¬ ("A" : String) = "NS" := by decide
    have h3 : ¬ ("A" : String) = "CNAME" := by decide
    simp [glueTargets, h1, h2, h3]

/-- The `ns` (authority) section of a cache reply is always empty. -/
theorem get_ns_empty (c : cache) (now : Nat) (qname qtype : String) :
    (c.get now qname qtype).ns = [] := by
  unfold cache.get
  dsimp only
  split
  · rfl
  · split
    · rfl
    · split
      · rfl
      · split <;> rfl

/-! ## Claim C1 -/

/-- C1 (amended): for every cache state and `(name, type)` query, `cache.get`
returns a message whose answer section contains exactly the stored entries
matching `(toLowerFQDN name, type)` whose expiry is strictly in the future (an
entry with `now ≥ expires` is never returned), each as a copy whose TTL is the
whole-second remainder `expires - now` (truncated to `uint32`); the stored
entries are untouched by the read.  For a record inserted at `t0` with TTL `T`
and read at `t1` in the half-open window `[t0, t0 + T)` — not the closed window
of the claim, see the counterexample — the returned TTL is
`T - (t1 - t0)` rounded down to whole seconds. -/
theorem C1_get_relative_ttl :
    (∀ (c : cache) (now : Nat) (qname qtype : String),
      (∀ r ∈ (c.get now qname qtype).answer, ∃ d ∈ c.rrs,
          d.rr.rrtype = StringToType qtype ∧ d.rr.name = toLowerFQDN qname ∧
          now < d.expires ∧ r = { d.rr with ttl := u32 ((d.expires - now) / second) })
      ∧ (∀ d ∈ c.rrs, d.rr.rrtype = StringToType qtype → d.rr.name = toLowerFQDN qname →
          now < d.expires →
          { d.rr with ttl := u32 ((d.expires - now) / second) }
            ∈ (c.get now qname qtype).answer)
      ∧ (c.getS now qname qtype).2 = c)
    ∧ (∀ (qtype : String) (c0 : cache) (r : RR) (t0 dt : Nat),
        (∀ d ∈ c0.rrs, rrKey d.rr ≠ rrKey (canonRR r)) →
        StringToType qtype = r.rrtype →
        dt < r.ttl * second → r.ttl < 4294967296 →
        { canonRR r with ttl := (r.ttl * second - dt) / second }
          ∈ ((c0.addRR t0 r).get (t0 + dt) r.name qtype).answer) := by
  constructor
  · intro c now qname qtype
    refine ⟨?_, ?_, rfl⟩
    · intro r hr
      rw [get_answer_eq] at hr
      exact (mem_cacheAnswer c.rrs now (toLowerFQDN qname) (StringToType qtype) r).mp hr
    · intro d hd h1 h2 h3
      rw [get_answer_eq]
      exact (mem_cacheAnswer c.rrs now (toLowerFQDN qname) (StringToType qtype) _).mpr
        ⟨d, hd, h1, h2, h3, rfl⟩
  · intro qtype c0 r t0 dt hnk hq hdt hlt
    have hrrs : (c0.addRR t0 r).rrs
        = c0.rrs ++ [⟨canonRR r, t0 + (canonRR r).ttl * second⟩] := by
      unfold cache.addRR
      rw [updateRRs_notFound c0.rrs (canonRR r) t0 hnk]
    rw [get_answer_eq]
    unfold cache.getAnswer
    rw [mem_cacheAnswer, hrrs]
    refine ⟨⟨canonRR r, t0 + (canonRR r).ttl * second⟩, by simp, ?_, ?_, ?_, ?_⟩
    · show (canonRR r).rrtype = StringToType qtype
      rw [canonRR_rrtype]; exact hq.symm
    · show (canonRR r).name = toLowerFQDN r.name
      exact canonRR_name r
    · show t0 + dt < t0 + (canonRR r).ttl * second
      rw [canonRR_ttl]; omega
    · show ({ canonRR r with ttl := (r.ttl * second - dt) / second } : RR)
        = { canonRR r with ttl := u32 ((t0 + (canonRR r).ttl * second - (t0 + dt)) / second) }
      have harith : (r.ttl * second - dt) / second
          = u32 ((t0 + (canonRR r).ttl * second - (t0 + dt)) / second) := by
        rw [canonRR_ttl]
        simp only [u32, second]
        omega
      rw [harith]

/-- Witness for C1: a record with TTL 2 s inserted at `t0 = 0` and read at
`t1 = 1 s` comes back with TTL 1. -/
theorem C1_get_relative_ttl_witness :
    second < 2 * second ∧
    { canonRR ⟨"a.", typeA, 2, "1.2.3.4"⟩ with ttl := (2 * second - second) / second }
      ∈ ((cacheEmpty.addRR 0 ⟨"a.", typeA, 2, "1.2.3.4"⟩).get (0 + second) "a." "A").answer :=
  ⟨by decide, C1_get_relative_ttl.2 "A" cacheEmpty ⟨"a.", typeA, 2, "1.2.3.4"⟩ 0 second
    (by simp [cacheEmpty]) (by decide) (by decide) (by decide)⟩

/-- C1 counterexample: the claim's TTL-decay window is the closed interval
`[t0, t0 + T]`, requiring a returned record (of TTL 0) at `t1 = t0 + T`; but
`cache.get` keeps an entry only while `now` is strictly before `expires`
(`now.Before(rr.expires)`), so reading at exactly `t1 = t0 + T` returns an
empty answer — no record at all. -/
theorem C1_counterexample :
    ((cacheEmpty.addRR 0 ⟨"a.", typeA, 1, "1.2.3.4"⟩).get (0 + 1 * second) "a." "A").answer
      = [] := by decide

/-! ## Claim C2 -/

/-- C2: inserting a record whose `(name, type, rdata)` key (after
canonicalisation) equals a stored entry's key leaves the entry list unchanged
except that the matched entry's expiry becomes `max(old_expires, now + ttl)`;
the insert is total and appends a new entry exactly when no stored entry
matches the key. -/
theorem C2_insert_extends_expiry :
    ∀ (c : cache) (now : Nat) (rr : RR),
      (∀ (l1 : List rrDetails) (d : rrDetails) (l2 : List rrDetails),
        c.rrs = l1 ++ d :: l2 → rrKey d.rr = rrKey (canonRR rr) →
        (∀ e ∈ l1, rrKey e.rr ≠ rrKey (canonRR rr)) →
        (c.addRR now rr).rrs
          = l1 ++ { d with expires := max d.expires (now + rr.ttl * second) } :: l2)
      ∧ ((∀ d ∈ c.rrs, rrKey d.rr ≠ rrKey (canonRR rr)) →
        (c.addRR now rr).rrs = c.rrs ++ [⟨canonRR rr, now + rr.ttl * second⟩]) := by
  intro c now rr
  constructor
  · intro l1 d l2 hsplit hd hl1
    unfold cache.addRR
    rw [hsplit, updateRRs_found l1 d l2 (canonRR rr) now hd.symm hl1, canonRR_ttl]
  · intro h
    unfold cache.addRR
    rw [updateRRs_notFound c.rrs (canonRR rr) now h, canonRR_ttl]

/-- Witness for C2: re-inserting an existing record with expiry in the future
extends the stored expiry to `now + ttl` (the later of the two). -/
theorem C2_insert_extends_expiry_witness :
    (cache.addRR ⟨[⟨⟨"a.", typeA, 7, "1.2.3.4"⟩, 3⟩]⟩ 0 ⟨"a.", typeA, 7, "1.2.3.4"⟩).rrs
      = [⟨⟨"a.", typeA, 7, "1.2.3.4"⟩, max 3 (0 + 7 * second)⟩] := by
  have h := (C2_insert_extends_expiry ⟨[⟨⟨"a.", typeA, 7, "1.2.3.4"⟩, 3⟩]⟩ 0
      ⟨"a.", typeA, 7, "1.2.3.4"⟩).1 [] ⟨⟨"a.", typeA, 7, "1.2.3.4"⟩, 3⟩ []
      rfl (by decide) (by simp)
  simpa using h

/-! ## Claim C3 -/

/-- C3: starting from the empty cache, any sequence of `addRR` / `addMsg`
operations (which covers the root-hints seeding at construction, itself a
sequence of `addRR` calls) maintains the invariant that no two stored entries
share a `(name, type, rdata)` key; and since the key excludes the TTL,
re-inserting a record with a different TTL never grows the entry list. -/
theorem C3_no_duplicate_keys :
    (∀ ops : List CacheOp, cacheWF (applyOps cacheEmpty ops))
    ∧ (∀ (c : cache) (now t : Nat) (rr : RR),
        (∃ d ∈ c.rrs, rrKey d.rr = rrKey (canonRR rr)) →
        (c.addRR now { rr with ttl := t }).rrs.length = c.rrs.length) := by
  constructor
  · intro ops
    exact cacheWF_applyOps ops cacheEmpty (by simp [cacheWF, keysOf, cacheEmpty])
  · intro c now t rr hex
    unfold cache.addRR
    apply length_updateRRs_found
    rw [canonRR_ttl_update, rrKey_ttl_update]
    exact hex

/-- Witness for C3: re-inserting a cached record with TTL 99 instead of 7
leaves a single entry in the cache. -/
theorem C3_no_duplicate_keys_witness :
    (cache.addRR ⟨[⟨⟨"a.", typeA, 7, "1.2.3.4"⟩, 3⟩]⟩ 0
        { (⟨"a.", typeA, 7, "1.2.3.4"⟩ : RR) with ttl := 99 }).rrs.length = 1 := by
  have h := C3_no_duplicate_keys.2 ⟨[⟨⟨"a.", typeA, 7, "1.2.3.4"⟩, 3⟩]⟩ 0 99
    ⟨"a.", typeA, 7, "1.2.3.4"⟩ ⟨⟨⟨"a.", typeA, 7, "1.2.3.4"⟩, 3⟩, by simp, by decide⟩
  simpa using h

/-! ## Claim C4 -/

/-- C4: for an `NS`, `MX` or `CNAME` query with a populated answer section, the
extra section of the cache reply is the concatenation of the `A`-query answers
for the targets extracted from the answer — i.e. exactly the unexpired cached
`A` records for each target, with relative TTL — and the enrichment is
single-level: an `A` lookup never populates an extra section. -/
theorem C4_glue_enrichment :
    ∀ (c : cache) (now : Nat) (qname qtype : String),
      qtype = "NS" ∨ qtype = "MX" ∨ qtype = "CNAME" →
      (c.get now qname qtype).answer ≠ [] →
      ((c.get now qname qtype).extra
          = (glueTargets qtype (c.get now qname qtype).answer).flatMap
              (fun t => (c.get now t "A").answer)
        ∧ (∀ r, r ∈ (c.get now qname qtype).extra ↔
            ∃ t ∈ glueTargets qtype (c.get now qname qtype).answer,
              ∃ d ∈ c.rrs, d.rr.rrtype = typeA ∧ d.rr.name = toLowerFQDN t ∧
                now < d.expires ∧ r = { d.rr with ttl := u32 ((d.expires - now) / second) })
        ∧ (∀ name, (c.get now name "A").extra = [])) := by
  intro c now qname qtype _hq hne
  rw [get_answer_eq] at hne
  have hemp : ¬ (c.getAnswer now qname qtype).isEmpty = true := by
    simpa [List.isEmpty_iff] using hne
  have hextra := get_extra_eq c now qname qtype hemp
  have hflat : (c.get now qname qtype).extra
      = (glueTargets qtype (c.get now qname qtype).answer).flatMap
          (fun t => (c.get now t "A").answer) := by
    rw [hextra, get_answer_eq]
    refine List.flatMap_congr ?_
    intro t _
    rw [get_answer_eq]
  refine ⟨hflat, ?_, fun name => getA_extra_empty c now name⟩
  intro r
  rw [hextra, List.mem_flatMap]
  constructor
  · rintro ⟨t, ht, hr⟩
    rw [get_answer_eq]
    refine ⟨t, ht, ?_⟩
    have := (mem_cacheAnswer c.rrs now (toLowerFQDN t) (StringToType "A") r).mp hr
    simpa [StringToType, typeA] using this
  · rintro ⟨t, ht, d, hd, h1, h2, h3, hr⟩
    rw [get_answer_eq] at ht
    refine ⟨t, ht, ?_⟩
    apply (mem_cacheAnswer c.rrs now (toLowerFQDN t) (StringToType "A") r).mpr
    exact ⟨d, hd, by simpa [StringToType, typeA] using h1, h2, h3, hr⟩

/-- Witness for C4: an `NS` answer for `org.` is enriched with the cached glue
`A` record of its target `ns1.org.`. -/
theorem C4_glue_enrichment_witness :
    ((⟨[⟨⟨"org.", typeNS, 60, "ns1.org."⟩, second⟩,
        ⟨⟨"ns1.org.", typeA, 60, "9.9.9.9"⟩, second⟩]⟩ : cache).get 0 "org." "NS").extra
      = [⟨"ns1.org.", typeA, 1, "9.9.9.9"⟩] := by
  have h := (C4_glue_enrichment
    ⟨[⟨⟨"org.", typeNS, 60, "ns1.org."⟩, second⟩,
      ⟨⟨"ns1.org.", typeA, 60, "9.9.9.9"⟩, second⟩]⟩ 0 "org." "NS"
    (Or.inl rfl) (by decide)).1
  exact h.trans (by decide)

/-! ## Claim C10 -/

/-- C10: a cache read leaves the stored entry list completely unchanged (the
state-passing form of `get` returns the input cache), and every record placed
in the returned message is a fresh copy of a stored record with only its TTL
field replaced, so the stored entries are never aliased by the reply. -/
theorem C10_get_pure :
    ∀ (c : cache) (now : Nat) (qname qtype : String),
      (c.getS now qname qtype).2 = c
      ∧ (∀ r ∈ (c.getS now qname qtype).1.answer,
          ∃ d ∈ c.rrs, ∃ t, r = { d.rr with ttl := t })
      ∧ (∀ r ∈ (c.getS now qname qtype).1.extra,
          ∃ d ∈ c.rrs, ∃ t, r = { d.rr with ttl := t }) := by
  intro c now qname qtype
  refine ⟨rfl, ?_, ?_⟩
  · intro r hr
    have hr2 : r ∈ (c.get now qname qtype).answer := hr
    rw [get_answer_eq] at hr2
    rcases (mem_cacheAnswer c.rrs now (toLowerFQDN qname) (StringToType qtype) r).mp hr2
      with ⟨d, hd, _, _, _, hcopy⟩
    exact ⟨d, hd, _, hcopy⟩
  · intro r hr
    have hr2 : r ∈ (c.get now qname qtype).extra := hr
    by_cases hemp : (c.getAnswer now qname qtype).isEmpty = true
    · rw [get_extra_empty c now qname qtype hemp] at hr2
      cases hr2
    · rw [get_extra_eq c now qname qtype hemp, List.mem_flatMap] at hr2
      rcases hr2 with ⟨t, _, hrt⟩
      rcases (mem_cacheAnswer c.rrs now (toLowerFQDN t) (StringToType "A") r).mp hrt
        with ⟨d, hd, _, _, _, hcopy⟩
      exact ⟨d, hd, _, hcopy⟩

/-- Witness for C10: a record returned from a populated cache is a TTL-rewritten
copy of the stored record. -/
theorem C10_get_pure_witness :
    ∃ d ∈ ([⟨⟨"a.", typeA, 9, "1.2.3.4"⟩, 7 * second⟩] : List rrDetails), ∃ t,
      (⟨"a.", typeA, 7, "1.2.3.4"⟩ : RR) = { d.rr with ttl := t } :=
  (C10_get_pure ⟨[⟨⟨"a.", typeA, 9, "1.2.3.4"⟩, 7 * second⟩]⟩ 0 "a." "A").2.1
    ⟨"a.", typeA, 7, "1.2.3.4"⟩ (by decide)

/-! ## The resolution engine (`resolver.go`, current revision)

The engine is embedded with an explicit fuel argument: every call between the
mutually recursive functions decrements the fuel, so the definitions terminate
structurally, and for sufficiently large fuel the model computes exactly what
the source computes (the real recursion is bounded by the `depth > MaxDepth`
guard).  The network and the nameserver shuffle are oracle parameters; the
concurrent fan-out of `queryMultiple` is modelled by running the goroutine
bodies sequentially in launch order and parameterising the reply-arrival order
of the selection loop. -/

/-- The maximum recursive query depth (`MaxDepth` in `resolver.go`). -/
def MaxDepth : Nat := 10

/-- Fan-out width (`MaxNameservers` in `resolver.go`). -/
def MaxNameservers : Nat := 4

/-- The error kinds of the resolver (`ErrMaxDepth`, `ErrMaxParent`, `ErrNoNS`,
`ErrQueryLoop`, the formatted no-A-record error, and transport errors). -/
inductive RErr where
  | maxDepth
  | maxParent
  | noNS
  | queryLoop
  | noARecord (ns : String)
  | network
deriving Repr, DecidableEq

/-- A DNS question (name and numeric type). -/
structure Question where
  qname : String
  qtype : Nat
deriving Repr, DecidableEq

/-- The outgoing query message: the question and the recursion-desired flag. -/
structure QMsg where
  question : Question
  recursionDesired : Bool
deriving Repr, DecidableEq

/-- The question construction at the top of `querySingle`: an unknown type
string falls back to `dns.TypeA`; `SetQuestion` sets recursion-desired to
true, the next source line clears it, and the `qtype == "NS"` special case
sets it again. -/
def querySingleMsg (qname qtype : String) : QMsg :=
  let dtype := StringToType qtype
  let dtype := if dtype = 0 then typeA else dtype
  let qmsg : QMsg := { question := ⟨qname, dtype⟩, recursionDesired := true }
  let qmsg := { qmsg with recursionDesired := false }
  if qtype = "NS" then { qmsg with recursionDesired := true } else qmsg

/-- Models `IsIpv4Net` (`net.ParseIP(host) != nil`) for the dotted-quad IPv4
form; IPv6 literals, which `ParseIP` would also accept, are out of scope for
the claims. -/
def IsIpv4Net (host : String) : Bool :=
  let parts := splitChar '.' host
  parts.length == 4 && parts.all (fun p =>
    !p.data.isEmpty && p.data.length ≤ 3 && p.data.all Char.isDigit &&
    p.data.foldl (fun acc c => acc * 10 + (c.toNat - 48)) 0 ≤ 255)

/-- The oracle environment: the network (a reply or a transport failure for a
query message sent to an IP), the nameserver shuffle (`rand.Intn` driven in the
source), and the current instant. -/
structure Env where
  net : String → QMsg → Option Msg
  shuffle : List String → List String
  now : Nat

/-- The mutable resolution state: the shared record cache, the per-resolution
loop-counter map `qs` (an association list keyed by `qname + "_" + qtype`),
and — as pure instrumentation used only by the theorems — the ordered log of
`queryWithCache` invocation keys. -/
structure RState where
  store : cache
  qs : List (String × Nat)
  log : List String
deriving DecidableEq

/-- Look up a counter (Go map read; absent keys read as the zero value). -/
def qsGet (qs : List (String × Nat)) (k : String) : Option Nat :=
  (qs.find? (fun p => p.1 == k)).map (fun p => p.2)

/-- Write a counter (Go map write). -/
def qsSet (qs : List (String × Nat)) (k : String) (v : Nat) : List (String × Nat) :=
  match qs with
  | [] => [(k, v)]
  | p :: rest => if p.1 == k then (k, v) :: rest else p :: qsSet rest k v

/-- The counter value of a key (0 when absent). -/
def qsCount (st : RState) (k : String) : Nat := (qsGet st.qs k).getD 0

/-- Append an invocation key to the instrumentation log. -/
def logEntry (st : RState) (key : String) : RState := { st with log := st.log ++ [key] }

/-- The loop-detection block of `queryWithCache` (lines 134-144 of the current
revision): an existing counter is incremented and the call is rejected when
the new value exceeds 4; an absent counter is set to 1.  Returns whether the
call may proceed, with the updated state. -/
def loopCheck (st : RState) (key : String) : Bool × RState :=
  match qsGet st.qs key with
  | some n =>
    if n + 1 > 4 then (false, { st with qs := qsSet st.qs key (n + 1) })
    else (true, { st with qs := qsSet st.qs key (n + 1) })
  | none => (true, { st with qs := qsSet st.qs key 1 })

/-- A reply arriving on the rendezvous channel of `queryMultiple`: the reply
message (absent on failure), the error, and the responding server. -/
structure queryAnswer where
  msg : Option Msg
  err : Option RErr
  server : String
deriving DecidableEq

/-- The reply-selection loop of `queryMultiple` (lines 252-269): receive a
reply, decrement the outstanding count, and return it when its error is nil or
no task remains; `none` models waiting forever (the `ctx.Done()` branch fires
instead). -/
def queryMultipleLoop : Nat → List queryAnswer → Option queryAnswer
  | _, [] => none
  | count, a :: rest =>
    if a.err = none ∨ count - 1 = 0 then some a
    else queryMultipleLoop (count - 1) rest

/-- Models `removeSliceString`-style deletion `append(l[:s], l[s+1:]...)`. -/
def removeAtIndex (l : List RR) (s : Nat) : List RR := l.take s ++ l.drop (s + 1)

/-- The ascending indices collected for removal in `querySingleChan`: answer
positions holding an `NS` record whose rendered form contains none of the
owner names of the `A` records of the extra section. -/
def ungluedIndices (answer : List RR) (foundNS : List String) : List Nat :=
  (answer.enum.filter (fun p =>
    p.2.rrtype == typeNS &&
      !(foundNS.any (fun f => containsStr (rrString p.2) f)))).map (fun p => p.1)

/-- The answer-pruning step of `querySingleChan` (lines 302-328): collect the
indices of unglued `NS` answers in ascending order, sort them descending
(`sort.Sort(sort.Reverse(...))` of an ascending list is its reverse), and
delete them one by one. -/
def removeUnglued (msg : Msg) : Msg :=
  let foundNS := findNameOfA msg.extra
  let remove := ungluedIndices msg.answer foundNS
  { msg with answer := remove.reverse.foldl removeAtIndex msg.answer }

/-- The functions of the resolution engine at one fuel level.  The source's
mutual recursion (`queryWithCache` → `queryMultiple` → `querySingleChan` →
`querySingle` → `queryWithCache`, bounded in reality by the
`depth > MaxDepth` guard) is realised as a fuel-indexed tuple of functions:
level `fuel + 1` calls into level `fuel`, so every definition is plainly
structural in the fuel and computes by kernel reduction, and for sufficiently
large fuel the model computes exactly what the source computes. -/
structure EngineFns where
  queryWithCache : String → String → Nat → RState → Except RErr Msg × RState
  findDelegation : String → Nat → RState → Except RErr (List RR) × RState
  queryMultiple : List String → String → String → Nat → RState → Except RErr Msg × RState
  runTasks : List String → String → String → Nat → RState → List queryAnswer × RState
  querySingleChan : String → String → String → Nat → RState → queryAnswer × RState
  nsPostProcess : String → String → Msg → Nat → RState → Msg × RState
  glueLoop : String → List String → Msg → Nat → RState → Msg × RState
  querySingle : String → String → String → Nat → RState → Except RErr Msg × RState
  cnameChase : String → Msg → Nat → RState → Msg × Nat × RState

/-- The exhausted-fuel engine (never reached when the fuel exceeds the call
depth, which the `depth > MaxDepth` guard bounds). -/
def engineZero : EngineFns where
  queryWithCache := fun _ _ _ st => (.error .maxDepth, st)
  findDelegation := fun _ _ st => (.error .maxDepth, st)
  queryMultiple := fun _ _ _ _ st => (.error .maxDepth, st)
  runTasks := fun _ _ _ _ st => ([], st)
  querySingleChan := fun ns _ _ _ st => (⟨none, some .maxDepth, ns⟩, st)
  nsPostProcess := fun _ _ msg _ st => (msg, st)
  glueLoop := fun _ _ msg _ st => (msg, st)
  querySingle := fun _ _ _ _ st => (.error .maxDepth, st)
  cnameChase := fun _ msg depth st => (msg, depth, st)

/-- One engine level: each body is the statement-by-statement translation of
the corresponding function of `resolver.go` (current revision), with the
recursive calls going through `prev`, the engine at the next-smaller fuel.

* `queryWithCache` (lines 118-221): record the invocation in the
  instrumentation log; reject when `depth > MaxDepth`; return a cache hit;
  run the loop-detection block; find the delegating NS records (rejecting
  with `NoNS` when none); query the nameservers; run the in-step CNAME
  chase; cache the reply and return it.
* `findDelegation` (lines 148-179): probe the cache for the zone's `NS`
  records; on a miss compute the parent zone (failing with `MaxParent` at
  the root) and recurse on `(parent, NS)`, using the recursive reply's
  answer section, or its authority section when the answer is empty.
* `queryMultiple` (lines 229-270): shuffle the nameserver list, launch up to
  `MaxNameservers` single queries (run sequentially here, in launch order),
  and select a reply with the rendezvous loop.
* `runTasks`: the launched `querySingleChan` goroutine bodies, run one by
  one, their channel messages collected in launch order.
* `querySingleChan` (lines 272-351): run the single query and, for an `NS`
  query, the post-processing blocks, then send the answer on the channel.
  When `querySingle` fails with qtype `NS` the source would dereference the
  nil reply in its `msg.Extra == nil` test; the model sends the error
  without post-processing.
* `nsPostProcess` (lines 287-328): when an `NS` reply holds no `A` record in
  the answer section and none in the extra section, query the same
  nameserver for an `A` record of every `NS` target of the answer, appending
  the answers of successful replies to the extra section; then, when the `A`
  counts of the answer and extra sections differ, delete every `NS` answer
  whose rendered form contains no owner name of an extra-section `A` record.
* `glueLoop` (lines 292-299): the glue follow-up loop over the `NS` targets.
* `querySingle` (lines 354-392): build the question; resolve the nameserver
  name to an address through the engine unless it is an IPv4 literal,
  failing when no `A` record comes back; then exchange the query.
* `cnameChase`: the CNAME-chase while loop shared verbatim by
  `queryWithCache` (lines 200-211) and `resolveWithContext` (lines 91-102):
  while the query is an `A` query, the answer holds no `A` record and the
  depth budget remains, follow the last `CNAME` target through
  `queryWithCache`, appending the answers of successful replies; stop when
  no `CNAME` is present. -/
def engineStep (env : Env) (prev : EngineFns) : EngineFns where
  queryWithCache := fun qname qtype depth st0 =>
    let st := logEntry st0 (qname ++ "_" ++ qtype)
    if depth > MaxDepth then (.error .maxDepth, st)
    else
      let m := st.store.get env.now qname qtype
      if m.answer ≠ [] then (.ok m, st)
      else
        match loopCheck st (qname ++ "_" ++ qtype) with
        | (false, st) => (.error .queryLoop, st)
        | (true, st) =>
          match prev.findDelegation qname depth st with
          | (.error e, st) => (.error e, st)
          | (.ok nsrrs, st) =>
            let ns := findNS nsrrs
            if ns = [] then (.error .noNS, st)
            else
              match prev.queryMultiple ns qname qtype (depth + 1) st with
              | (.error e, st) => (.error e, st)
              | (.ok rmsg, st) =>
                match prev.cnameChase qtype rmsg depth st with
                | (rmsg, _, st) =>
                  (.ok rmsg, { st with store := st.store.addMsg env.now (some rmsg) })
  findDelegation := fun qname depth st =>
    let nsmsg := st.store.get env.now qname "NS"
    if nsmsg.answer ≠ [] then (.ok nsmsg.answer, st)
    else
      match parent qname with
      | none => (.error .maxParent, st)
      | some pname =>
        match prev.queryWithCache pname "NS" (depth + 1) st with
        | (.error e, st) => (.error e, st)
        | (.ok m, st) => (.ok (if m.answer.isEmpty then m.ns else m.answer), st)
  queryMultiple := fun ns qname qtype depth st =>
    let ns2 := env.shuffle ns
    let launched := min MaxNameservers ns2.length
    match prev.runTasks (ns2.take launched) qname qtype depth st with
    | (arrivals, st) =>
      match queryMultipleLoop launched arrivals with
      | none => (.error .network, st)
      | some a =>
        match a.err with
        | some e => (.error e, st)
        | none =>
          match a.msg with
          | some m => (.ok m, st)
          | none => (.error .network, st)
  runTasks := fun nss qname qtype depth st =>
    match nss with
    | [] => ([], st)
    | n :: rest =>
      match prev.querySingleChan n qname qtype depth st with
      | (a, st) =>
        match prev.runTasks rest qname qtype depth st with
        | (as, st) => (a :: as, st)
  querySingleChan := fun ns qname qtype depth st =>
    match prev.querySingle ns qname qtype depth st with
    | (.error e, st) => (⟨none, some e, ns⟩, st)
    | (.ok msg, st) =>
      match prev.nsPostProcess ns qtype msg depth st with
      | (msg, st) => (⟨some msg, none, ns⟩, st)
  nsPostProcess := fun ns qtype msg depth st =>
    match
      (if qtype = "NS" ∧ findA msg.answer = [] ∧ findA msg.extra = [] then
        prev.glueLoop ns (findNS msg.answer) msg depth st
      else (msg, st)) with
    | (msg, st) =>
      (if qtype = "NS" ∧ (findA msg.answer).length ≠ (findA msg.extra).length then
        removeUnglued msg
      else msg, st)
  glueLoop := fun ns targets msg depth st =>
    match targets with
    | [] => (msg, st)
    | qns :: rest =>
      match prev.querySingle ns qns "A" depth st with
      | (.ok msg2, st) =>
          prev.glueLoop ns rest { msg with extra := msg.extra ++ msg2.answer } depth st
      | (.error _, st) => prev.glueLoop ns rest msg depth st
  querySingle := fun ns qname qtype depth st =>
    let qmsg := querySingleMsg qname qtype
    match
      (if IsIpv4Net ns then (.ok ns, st)
      else
        match prev.queryWithCache ns "A" (depth + 1) st with
        | (.error e, st) => (.error e, st)
        | (.ok nsa, st) =>
          if findA nsa.answer = [] then (.error (RErr.noARecord ns), st)
          else (Except.ok ((findA nsa.answer).headD ""), st)) with
    | (.error e, st) => (.error e, st)
    | (.ok ip, st) =>
      match env.net ip qmsg with
      | none => (.error .network, st)
      | some rmsg => (.ok rmsg, st)
  cnameChase := fun qtype msg depth st =>
    if qtype = "A" ∧ findA msg.answer = [] ∧ depth < MaxDepth then
      let cname := findCNAME msg.answer
      if cname = [] then (msg, depth, st)
      else
        match prev.queryWithCache (cname.getLastD "") "A" (depth + 1) st with
        | (.ok msg2, st) =>
            prev.cnameChase qtype { msg with answer := msg.answer ++ msg2.answer }
              (depth + 1) st
        | (.error _, st) => prev.cnameChase qtype msg (depth + 1) st
    else (msg, depth, st)

/-- The engine at a given fuel level. -/
def engine (env : Env) : Nat → EngineFns
  | 0 => engineZero
  | fuel + 1 => engineStep env (engine env fuel)

/-- Models `Resolver.queryWithCache` (lines 118-221); see `engineStep`. -/
def queryWithCache (env : Env) (fuel : Nat) (qname qtype : String) (depth : Nat)
    (st0 : RState) : Except RErr Msg × RState :=
  (engine env fuel).queryWithCache qname qtype depth st0

/-- The NS-set discovery of `queryWithCache` (lines 148-179); see `engineStep`. -/
def findDelegation (env : Env) (fuel : Nat) (qname : String) (depth : Nat)
    (st : RState) : Except RErr (List RR) × RState :=
  (engine env fuel).findDelegation qname depth st

/-- Models `Resolver.queryMultiple` (lines 229-270); see `engineStep`. -/
def queryMultiple (env : Env) (fuel : Nat) (ns : List String) (qname qtype : String)
    (depth : Nat) (st : RState) : Except RErr Msg × RState :=
  (engine env fuel).queryMultiple ns qname qtype depth st

/-- The launched goroutine bodies, in launch order; see `engineStep`. -/
def runTasks (env : Env) (fuel : Nat) (nss : List String) (qname qtype : String)
    (depth : Nat) (st : RState) : List queryAnswer × RState :=
  (engine env fuel).runTasks nss qname qtype depth st

/-- Models `Resolver.querySingleChan` (lines 272-351); see `engineStep`. -/
def querySingleChan (env : Env) (fuel : Nat) (ns : String) (qname qtype : String)
    (depth : Nat) (st : RState) : queryAnswer × RState :=
  (engine env fuel).querySingleChan ns qname qtype depth st

/-- The `NS`-specific post-processing of `querySingleChan` (lines 287-328);
see `engineStep`. -/
def nsPostProcess (env : Env) (fuel : Nat) (ns qtype : String) (msg : Msg)
    (depth : Nat) (st : RState) : Msg × RState :=
  (engine env fuel).nsPostProcess ns qtype msg depth st

/-- The glue follow-up loop of `querySingleChan` (lines 292-299); see
`engineStep`. -/
def glueLoop (env : Env) (fuel : Nat) (ns : String) (targets : List String)
    (msg : Msg) (depth : Nat) (st : RState) : Msg × RState :=
  (engine env fuel).glueLoop ns targets msg depth st

/-- Models `Resolver.querySingle` (lines 354-392); see `engineStep`. -/
def querySingle (env : Env) (fuel : Nat) (ns : String) (qname qtype : String)
    (depth : Nat) (st : RState) : Except RErr Msg × RState :=
  (engine env fuel).querySingle ns qname qtype depth st

/-- The CNAME-chase while loop (lines 91-102 and 200-211); see `engineStep`. -/
def cnameChase (env : Env) (fuel : Nat) (qtype : String) (msg : Msg) (depth : Nat)
    (st : RState) : Msg × Nat × RState :=
  (engine env fuel).cnameChase qtype msg depth st

/-- The empty-answer retry loop of `resolveWithContext` (lines 82-89): while
the answer is empty and the depth budget remains, re-invoke `queryWithCache`
on the same pair, appending the answers of successful retries.  The source
condition also tests `err != ErrQueryLoop` on the pre-loop error, which is
necessarily nil on loop entry (an error has already returned). -/
def retryLoop (env : Env) (fuel : Nat) (qname qtype : String) (msg : Msg) (depth : Nat)
    (st : RState) : Msg × Nat × RState :=
  match fuel with
  | 0 => (msg, depth, st)
  | fuel + 1 =>
    if msg.answer = [] ∧ depth < MaxDepth then
      match queryWithCache env fuel qname qtype (depth + 1) st with
      | (.ok msg2, st) =>
          retryLoop env fuel qname qtype { msg with answer := msg.answer ++ msg2.answer }
            (depth + 1) st
      | (.error _, st) => retryLoop env fuel qname qtype msg (depth + 1) st
    else (msg, depth, st)

/-- Models `Resolver.resolveWithContext` (lines 72-113): reset the
per-resolution counters (`qs := make(map[string]int)`), run `queryWithCache`,
then the empty-answer retry loop, the `A`-query CNAME chase, and the `NS`
glue backfill (resolve the first `NS` target's address and append that reply's
extra section). -/
def resolveWithContext (env : Env) (fuel : Nat) (qname qtype : String) (depth : Nat)
    (st : RState) : Except RErr Msg × RState :=
  match fuel with
  | 0 => (.error .maxDepth, st)
  | fuel + 1 =>
    let st := { st with qs := [] }
    match queryWithCache env fuel qname qtype depth st with
    | (.error e, st) => (.error e, st)
    | (.ok msg, st) =>
      match retryLoop env fuel qname qtype msg depth st with
      | (msg, depth, st) =>
        match cnameChase env fuel qtype msg depth st with
        | (msg, depth, st) =>
          match
            (if qtype = "NS" ∧ findA msg.extra = [] then
              match findNS msg.answer with
              | [] => (msg, st)
              | n :: _ =>
                match queryWithCache env fuel n "A" depth st with
                | (.ok msg2, st) => ({ msg with extra := msg.extra ++ msg2.extra }, st)
                | (.error _, st) => (msg, st)
            else (msg, st)) with
          | (msg, st) => (.ok msg, st)

/-- Models `Resolver.Resolve` (lines 62-69): append a trailing dot when
missing, canonicalise, and run the engine at depth 0. -/
def Resolve (env : Env) (fuel : Nat) (qname qtype : String) (st : RState) :
    Except RErr Msg × RState :=
  let qname := if strEndsWithDot qname then qname else qname ++ "."
  resolveWithContext env fuel (toLowerFQDN qname) qtype 0 st

/-! ## Lemmas about the loop counters -/

theorem qsGet_qsSet_self (qs : List (String × Nat)) (k : String) (v : Nat) :
    qsGet (qsSet qs k v) k = some v := by
  induction qs with
  | nil => simp [qsSet, qsGet]
  | cons p rest ih =>
    by_cases h : p.1 = k
    · simp [qsSet, qsGet, h]
    · have hb : (p.1 == k) = false := by simp [h]
      simp only [qsSet, hb, if_false, Bool.false_eq_true]
      simpa [qsGet, List.find?, hb] using ih

theorem qsGet_qsSet_other (qs : List (String × Nat)) (k k' : String) (v : Nat)
    (h : k' ≠ k) : qsGet (qsSet qs k v) k' = qsGet qs k' := by
  have hkk : ¬ (k = k') := fun e => h e.symm
  have hkb : (k == k') = false := by simp [hkk]
  induction qs with
  | nil => simp [qsSet, qsGet, List.find?, hkb]
  | cons p rest ih =>
    by_cases hp : p.1 = k
    · have hb : (p.1 == k) = true := by simp [hp]
      have hb2 : (p.1 == k') = false := by
        simp only [hp]
        simp [hkk]
      simp [qsSet, qsGet, List.find?, hb, hb2, hkb]
    · have hb : (p.1 == k) = false := by simp [hp]
      by_cases hp2 : p.1 = k'
      · have hb2 : (p.1 == k') = true := by simp [hp2]
        simp [qsSet, qsGet, List.find?, hb, hb2]
      · have hb2 : (p.1 == k') = false := by simp [hp2]
        simp only [qsSet, hb, if_false, Bool.false_eq_true]
        simpa [qsGet, List.find?, hb2] using ih

/-- The counter states before and after: no counter decreases. -/
def StLe (st st' : RState) : Prop := ∀ k, qsCount st k ≤ qsCount st' k

theorem StLe_refl (st : RState) : StLe st st := fun _ => le_refl _

theorem StLe_trans {a b c : RState} (h1 : StLe a b) (h2 : StLe b c) : StLe a c :=
  fun k => le_trans (h1 k) (h2 k)

theorem qsCount_mk (store : cache) (qs : List (String × Nat)) (log : List String)
    (k : String) : qsCount ⟨store, qs, log⟩ k = (qsGet qs k).getD 0 := rfl

theorem StLe_of_qs_eq {st st' : RState} (h : st'.qs = st.qs) : StLe st st' := by
  intro k
  unfold qsCount
  rw [h]

theorem StLe_logEntry (st : RState) (key : String) : StLe st (logEntry st key) :=
  StLe_of_qs_eq rfl

/-- The loop-detection block increments the pair's counter by exactly one,
touches no other counter, and rejects exactly when the incremented counter
exceeds 4. -/
theorem loopCheck_spec (st : RState) (key : String) :
    qsCount (loopCheck st key).2 key = qsCount st key + 1
    ∧ (∀ k, k ≠ key → qsCount (loopCheck st key).2 k = qsCount st k)
    ∧ ((loopCheck st key).1 = false ↔ qsCount st key + 1 > 4) := by
  unfold loopCheck
  cases hg : qsGet st.qs key with
  | none =>
    refine ⟨?_, ?_, ?_⟩
    · simp [qsCount, hg, qsGet_qsSet_self]
    · intro k hk
      simp [qsCount, qsGet_qsSet_other st.qs key k 1 hk]
    · simp [qsCount, hg]
  | some n =>
    by_cases h4 : n + 1 > 4
    · refine ⟨?_, ?_, ?_⟩
      · simp [h4, qsCount, hg, qsGet_qsSet_self]
      · intro k hk
        simp [h4, qsCount, qsGet_qsSet_other st.qs key k (n + 1) hk]
      · simp [h4, qsCount, hg]
    · refine ⟨?_, ?_, ?_⟩
      · simp [h4, qsCount, hg, qsGet_qsSet_self]
      · intro k hk
        simp [h4, qsCount, qsGet_qsSet_other st.qs key k (n + 1) hk]
      · simp [h4, qsCount, hg]

theorem StLe_loopCheck (st : RState) (key : String) : StLe st (loopCheck st key).2 := by
  intro k
  by_cases hk : k = key
  · subst hk
    rw [(loopCheck_spec st k).1]
    omega
  · rw [(loopCheck_spec st key).2.1 k hk]

/-! ## Unfolding equations of the engine at successor fuel -/

theorem queryWithCache_succ (env : Env) (fuel : Nat) (qname qtype : String)
    (depth : Nat) (st0 : RState) :
    queryWithCache env (fuel + 1) qname qtype depth st0
      = (if depth > MaxDepth then (.error .maxDepth, logEntry st0 (qname ++ "_" ++ qtype))
        else if (st0.store.get env.now qname qtype).answer ≠ [] then
          (.ok (st0.store.get env.now qname qtype), logEntry st0 (qname ++ "_" ++ qtype))
        else
          match loopCheck (logEntry st0 (qname ++ "_" ++ qtype)) (qname ++ "_" ++ qtype) with
          | (false, st) => (.error .queryLoop, st)
          | (true, st) =>
            match findDelegation env fuel qname depth st with
            | (.error e, st) => (.error e, st)
            | (.ok nsrrs, st) =>
              if findNS nsrrs = [] then (.error .noNS, st)
              else
                match queryMultiple env fuel (findNS nsrrs) qname qtype (depth + 1) st with
                | (.error e, st) => (.error e, st)
                | (.ok rmsg, st) =>
                  match cnameChase env fuel qtype rmsg depth st with
                  | (rmsg, _, st) =>
                    (.ok rmsg, { st with store := st.store.addMsg env.now (some rmsg) })) :=
  rfl

theorem findDelegation_succ (env : Env) (fuel : Nat) (qname : String) (depth : Nat)
    (st : RState) :
    findDelegation env (fuel + 1) qname depth st
      = (if (st.store.get env.now qname "NS").answer ≠ [] then
          (.ok (st.store.get env.now qname "NS").answer, st)
        else
          match parent qname with
          | none => (.error .maxParent, st)
          | some pname =>
            match queryWithCache env fuel pname "NS" (depth + 1) st with
            | (.error e, st) => (.error e, st)
            | (.ok m, st) => (.ok (if m.answer.isEmpty then m.ns else m.answer), st)) :=
  rfl

theorem queryMultiple_succ (env : Env) (fuel : Nat) (ns : List String)
    (qname qtype : String) (depth : Nat) (st : RState) :
    queryMultiple env (fuel + 1) ns qname qtype depth st
      = (match
          runTasks env fuel
            ((env.shuffle ns).take (min MaxNameservers (env.shuffle ns).length))
            qname qtype depth st with
        | (arrivals, st) =>
          match queryMultipleLoop (min MaxNameservers (env.shuffle ns).length) arrivals with
          | none => (.error .network, st)
          | some a =>
            match a.err with
            | some e => (.error e, st)
            | none =>
              match a.msg with
              | some m => (.ok m, st)
              | none => (.error .network, st)) :=
  rfl

theorem runTasks_succ (env : Env) (fuel : Nat) (nss : List String)
    (qname qtype : String) (depth : Nat) (st : RState) :
    runTasks env (fuel + 1) nss qname qtype depth st
      = (match nss with
        | [] => ([], st)
        | n :: rest =>
          match querySingleChan env fuel n qname qtype depth st with
          | (a, st) =>
            match runTasks env fuel rest qname qtype depth st with
            | (as, st) => (a :: as, st)) :=
  rfl

theorem querySingleChan_succ (env : Env) (fuel : Nat) (ns : String)
    (qname qtype : String) (depth : Nat) (st : RState) :
    querySingleChan env (fuel + 1) ns qname qtype depth st
      = (match querySingle env fuel ns qname qtype depth st with
        | (.error e, st) => (⟨none, some e, ns⟩, st)
        | (.ok msg, st) =>
          match nsPostProcess env fuel ns qtype msg depth st with
          | (msg, st) => (⟨some msg, none, ns⟩, st)) :=
  rfl

theorem nsPostProcess_succ (env : Env) (fuel : Nat) (ns qtype : String) (msg : Msg)
    (depth : Nat) (st : RState) :
    nsPostProcess env (fuel + 1) ns qtype msg depth st
      = (match
          (if qtype = "NS" ∧ findA msg.answer = [] ∧ findA msg.extra = [] then
            glueLoop env fuel ns (findNS msg.answer) msg depth st
          else (msg, st)) with
        | (msg, st) =>
          (if qtype = "NS" ∧ (findA msg.answer).length ≠ (findA msg.extra).length then
            removeUnglued msg
          else msg, st)) :=
  rfl

theorem glueLoop_succ (env : Env) (fuel : Nat) (ns : String) (targets : List String)
    (msg : Msg) (depth : Nat) (st : RState) :
    glueLoop env (fuel + 1) ns targets msg depth st
      = (match targets with
        | [] => (msg, st)
        | qns :: rest =>
          match querySingle env fuel ns qns "A" depth st with
          | (.ok msg2, st) =>
              glueLoop env fuel ns rest { msg with extra := msg.extra ++ msg2.answer } depth st
          | (.error _, st) => glueLoop env fuel ns rest msg depth st) :=
  rfl

theorem querySingle_succ (env : Env) (fuel : Nat) (ns : String) (qname qtype : String)
    (depth : Nat) (st : RState) :
    querySingle env (fuel + 1) ns qname qtype depth st
      = (match
          (if IsIpv4Net ns then (.ok ns, st)
          else
            match queryWithCache env fuel ns "A" (depth + 1) st with
            | (.error e, st) => (.error e, st)
            | (.ok nsa, st) =>
              if findA nsa.answer = [] then (.error (RErr.noARecord ns), st)
              else (Except.ok ((findA nsa.answer).headD ""), st)) with
        | (.error e, st) => (.error e, st)
        | (.ok ip, st) =>
          match env.net ip (querySingleMsg qname qtype) with
          | none => (.error .network, st)
          | some rmsg => (.ok rmsg, st)) :=
  rfl

theorem cnameChase_succ (env : Env) (fuel : Nat) (qtype : String) (msg : Msg)
    (depth : Nat) (st : RState) :
    cnameChase env (fuel + 1) qtype msg depth st
      = (if qtype = "A" ∧ findA msg.answer = [] ∧ depth < MaxDepth then
          if findCNAME msg.answer = [] then (msg, depth, st)
          else
            match
              queryWithCache env fuel ((findCNAME msg.answer).getLastD "") "A"
                (depth + 1) st with
            | (.ok msg2, st) =>
                cnameChase env fuel qtype { msg with answer := msg.answer ++ msg2.answer }
                  (depth + 1) st
            | (.error _, st) => cnameChase env fuel qtype msg (depth + 1) st
        else (msg, depth, st)) :=
  rfl

/-- The only counter mutation anywhere in the engine is the
increment-or-initialise of the loop-detection block, so across every engine
function the loop counters never decrease. -/
theorem engine_qs_mono (env : Env) : ∀ fuel : Nat,
    (∀ qname qtype depth st, StLe st (queryWithCache env fuel qname qtype depth st).2)
    ∧ (∀ qname depth st, StLe st (findDelegation env fuel qname depth st).2)
    ∧ (∀ ns qname qtype depth st, StLe st (queryMultiple env fuel ns qname qtype depth st).2)
    ∧ (∀ nss qname qtype depth st, StLe st (runTasks env fuel nss qname qtype depth st).2)
    ∧ (∀ ns qname qtype depth st, StLe st (querySingleChan env fuel ns qname qtype depth st).2)
    ∧ (∀ ns qtype msg depth st, StLe st (nsPostProcess env fuel ns qtype msg depth st).2)
    ∧ (∀ ns targets msg depth st, StLe st (glueLoop env fuel ns targets msg depth st).2)
    ∧ (∀ ns qname qtype depth st, StLe st (querySingle env fuel ns qname qtype depth st).2)
    ∧ (∀ qtype msg depth st, StLe st (cnameChase env fuel qtype msg depth st).2.2) := by
  intro fuel
  induction fuel with
  | zero =>
    refine ⟨?_, ?_, ?_, ?_, ?_, ?_, ?_, ?_, ?_⟩ <;> intros <;> exact StLe_refl _
  | succ fuel ih =>
    obtain ⟨ihQ, ihF, ihM, ihR, ihC, ihP, ihG, ihS, ihCh⟩ := ih
    refine ⟨?_, ?_, ?_, ?_, ?_, ?_, ?_, ?_, ?_⟩
    · -- queryWithCache
      intro qname qtype depth st0
      rw [queryWithCache_succ]
      by_cases hd : depth > MaxDepth
      · rw [if_pos hd]
        exact StLe_logEntry st0 _
      · rw [if_neg hd]
        by_cases hm : (st0.store.get env.now qname qtype).answer ≠ []
        · rw [if_pos hm]
          exact StLe_logEntry st0 _
        · rw [if_neg hm]
          have h1 : StLe st0
              (loopCheck (logEntry st0 (qname ++ "_" ++ qtype)) (qname ++ "_" ++ qtype)).2 :=
            StLe_trans (StLe_logEntry _ _) (StLe_loopCheck _ _)
          rcases hlc : loopCheck (logEntry st0 (qname ++ "_" ++ qtype)) (qname ++ "_" ++ qtype)
            with ⟨b, st1⟩
          rw [hlc] at h1
          cases b
          · exact h1
          · dsimp only
            rcases hfd : findDelegation env fuel qname depth st1 with ⟨res, st2⟩
            have h2 : StLe st0 st2 := by
              have h := ihF qname depth st1
              rw [hfd] at h
              exact StLe_trans h1 h
            cases res with
            | error e => exact h2
            | ok nsrrs =>
              dsimp only
              by_cases hns : findNS nsrrs = []
              · rw [if_pos hns]
                exact h2
              · rw [if_neg hns]
                rcases hqm : queryMultiple env fuel (findNS nsrrs) qname qtype (depth + 1) st2
                  with ⟨res2, st3⟩
                have h3 : StLe st0 st3 := by
                  have h := ihM (findNS nsrrs) qname qtype (depth + 1) st2
                  rw [hqm] at h
                  exact StLe_trans h2 h
                cases res2 with
                | error e => exact h3
                | ok rmsg =>
                  dsimp only
                  rcases hcc : cnameChase env fuel qtype rmsg depth st3 with ⟨rmsg2, d2, st4⟩
                  have h4 : StLe st0 st4 := by
                    have h := ihCh qtype rmsg depth st3
                    rw [hcc] at h
                    exact StLe_trans h3 h
                  exact StLe_trans h4 (StLe_of_qs_eq rfl)
    · -- findDelegation
      intro qname depth st
      rw [findDelegation_succ]
      by_cases hm : (st.store.get env.now qname "NS").answer ≠ []
      · rw [if_pos hm]
        exact StLe_refl st
      · rw [if_neg hm]
        cases hp : parent qname with
        | none => exact StLe_refl st
        | some pname =>
          dsimp only
          rcases hq : queryWithCache env fuel pname "NS" (depth + 1) st with ⟨res, st2⟩
          have h2 : StLe st st2 := by
            have h := ihQ pname "NS" (depth + 1) st
            rw [hq] at h
            exact h
          cases res with
          | error e => exact h2
          | ok m => exact h2
    · -- queryMultiple
      intro ns qname qtype depth st
      rw [queryMultiple_succ]
      rcases hr : runTasks env fuel
          ((env.shuffle ns).take (min MaxNameservers (env.shuffle ns).length))
          qname qtype depth st with ⟨arrivals, st2⟩
      have h2 : StLe st st2 := by
        have h := ihR ((env.shuffle ns).take (min MaxNameservers (env.shuffle ns).length))
          qname qtype depth st
        rw [hr] at h
        exact h
      dsimp only
      cases queryMultipleLoop (min MaxNameservers (env.shuffle ns).length) arrivals with
      | none => exact h2
      | some a =>
        dsimp only
        cases a.err with
        | some e => exact h2
        | none =>
          dsimp only
          cases a.msg with
          | some m => exact h2
          | none => exact h2
    · -- runTasks
      intro nss qname qtype depth st
      rw [runTasks_succ]
      cases nss with
      | nil => exact StLe_refl st
      | cons n rest =>
        dsimp only
        rcases h1 : querySingleChan env fuel n qname qtype depth st with ⟨a, st2⟩
        have ha : StLe st st2 := by
          have h := ihC n qname qtype depth st
          rw [h1] at h
          exact h
        dsimp only
        rcases h2 : runTasks env fuel rest qname qtype depth st2 with ⟨as, st3⟩
        have hb : StLe st2 st3 := by
          have h := ihR rest qname qtype depth st2
          rw [h2] at h
          exact h
        exact StLe_trans ha hb
    · -- querySingleChan
      intro ns qname qtype depth st
      rw [querySingleChan_succ]
      rcases h1 : querySingle env fuel ns qname qtype depth st with ⟨res, st2⟩
      have ha : StLe st st2 := by
        have h := ihS ns qname qtype depth st
        rw [h1] at h
        exact h
      cases res with
      | error e => exact ha
      | ok msg =>
        dsimp only
        rcases h2 : nsPostProcess env fuel ns qtype msg depth st2 with ⟨m2, st3⟩
        have hb : StLe st2 st3 := by
          have h := ihP ns qtype msg depth st2
          rw [h2] at h
          exact h
        exact StLe_trans ha hb
    · -- nsPostProcess
      intro ns qtype msg depth st
      rw [nsPostProcess_succ]
      by_cases hc : qtype = "NS" ∧ findA msg.answer = [] ∧ findA msg.extra = []
      · rw [if_pos hc]
        rcases h1 : glueLoop env fuel ns (findNS msg.answer) msg depth st with ⟨m2, st2⟩
        have ha : StLe st st2 := by
          have h := ihG ns (findNS msg.answer) msg depth st
          rw [h1] at h
          exact h
        exact ha
      · rw [if_neg hc]
        exact StLe_refl st
    · -- glueLoop
      intro ns targets msg depth st
      rw [glueLoop_succ]
      cases targets with
      | nil => exact StLe_refl st
      | cons qns rest =>
        dsimp only
        rcases h1 : querySingle env fuel ns qns "A" depth st with ⟨res, st2⟩
        have ha : StLe st st2 := by
          have h := ihS ns qns "A" depth st
          rw [h1] at h
          exact h
        cases res with
        | ok msg2 =>
          dsimp only
          rcases h2 : glueLoop env fuel ns rest
              { msg with extra := msg.extra ++ msg2.answer } depth st2 with ⟨m3, st3⟩
          have hb : StLe st2 st3 := by
            have h := ihG ns rest { msg with extra := msg.extra ++ msg2.answer } depth st2
            rw [h2] at h
            exact h
          exact StLe_trans ha hb
        | error e =>
          dsimp only
          rcases h2 : glueLoop env fuel ns rest msg depth st2 with ⟨m3, st3⟩
          have hb : StLe st2 st3 := by
            have h := ihG ns rest msg depth st2
            rw [h2] at h
            exact h
          exact StLe_trans ha hb
    · -- querySingle
      intro ns qname qtype depth st
      rw [querySingle_succ]
      by_cases hip : IsIpv4Net ns = true
      · rw [if_pos hip]
        dsimp only
        cases env.net ns (querySingleMsg qname qtype) with
        | none => exact StLe_refl st
        | some rmsg => exact StLe_refl st
      · rw [if_neg hip]
        rcases h1 : queryWithCache env fuel ns "A" (depth + 1) st with ⟨res, st2⟩
        have ha : StLe st st2 := by
          have h := ihQ ns "A" (depth + 1) st
          rw [h1] at h
          exact h
        cases res with
        | error e => exact ha
        | ok nsa =>
          dsimp only
          by_cases hfa : findA nsa.answer = []
          · rw [if_pos hfa]
            exact ha
          · rw [if_neg hfa]
            dsimp only
            cases env.net ((findA nsa.answer).headD "") (querySingleMsg qname qtype) with
            | none => exact ha
            | some rmsg => exact ha
    · -- cnameChase
      intro qtype msg depth st
      rw [cnameChase_succ]
      by_cases hc : qtype = "A" ∧ findA msg.answer = [] ∧ depth < MaxDepth
      · rw [if_pos hc]
        by_cases hcn : findCNAME msg.answer = []
        · rw [if_pos hcn]
          exact StLe_refl st
        · rw [if_neg hcn]
          rcases h1 : queryWithCache env fuel ((findCNAME msg.answer).getLastD "") "A"
              (depth + 1) st with ⟨res, st2⟩
          have ha : StLe st st2 := by
            have h := ihQ ((findCNAME msg.answer).getLastD "") "A" (depth + 1) st
            rw [h1] at h
            exact h
          cases res with
          | ok msg2 =>
            dsimp only
            rcases h2 : cnameChase env fuel qtype
                { msg with answer := msg.answer ++ msg2.answer } (depth + 1) st2
              with ⟨m3, d3, st3⟩
            have hb : StLe st2 st3 := by
              have h := ihCh qtype { msg with answer := msg.answer ++ msg2.answer }
                (depth + 1) st2
              rw [h2] at h
              exact h
            exact StLe_trans ha hb
          | error e =>
            dsimp only
            rcases h2 : cnameChase env fuel qtype msg (depth + 1) st2 with ⟨m3, d3, st3⟩
            have hb : StLe st2 st3 := by
              have h := ihCh qtype msg (depth + 1) st2
              rw [h2] at h
              exact h
            exact StLe_trans ha hb
      · rw [if_neg hc]
        exact StLe_refl st

/-! ## Claim C5 -/

/-- C5 (amended): within one resolution, every non-cache-hit entry into
`queryWithCache` runs the loop-detection block, which increments the pair's
counter by exactly one (initialising an absent counter to 1), touches no other
counter, and lets the invocation proceed exactly when the incremented counter
is at most 4; a non-cache-hit invocation that finds the counter already at 4
or more fails at once with `QueryLoop`, its only state change being the log
entry and the counter bump; and no `queryWithCache` call ever decreases a
counter.  The claim's bound of 5 on the *number of invocations* of the pair
does not hold: see the counterexample, where the empty-answer retry loop
re-enters the pair 11 times (the post-cap entries all failing with
`QueryLoop`). -/
theorem C5_loop_detection :
    (∀ (st : RState) (key : String),
      qsCount (loopCheck st key).2 key = qsCount st key + 1
      ∧ (∀ k, k ≠ key → qsCount (loopCheck st key).2 k = qsCount st k)
      ∧ ((loopCheck st key).1 = false ↔ qsCount st key + 1 > 4))
    ∧ (∀ (env : Env) (fuel : Nat) (qname qtype : String) (depth : Nat) (st : RState),
        depth ≤ MaxDepth →
        (st.store.get env.now qname qtype).answer = [] →
        4 ≤ qsCount st (qname ++ "_" ++ qtype) →
        queryWithCache env (fuel + 1) qname qtype depth st
          = (.error .queryLoop,
            (loopCheck (logEntry st (qname ++ "_" ++ qtype)) (qname ++ "_" ++ qtype)).2))
    ∧ (∀ (env : Env) (fuel : Nat) (qname qtype : String) (depth : Nat) (st : RState),
        StLe st (queryWithCache env fuel qname qtype depth st).2) := by
  refine ⟨loopCheck_spec, ?_, fun env fuel => (engine_qs_mono env fuel).1⟩
  intro env fuel qname qtype depth st hd hmiss h4
  rw [queryWithCache_succ]
  rw [if_neg (by omega : ¬ depth > MaxDepth)]
  rw [if_neg (fun hne => hne hmiss)]
  rcases hlc : loopCheck (logEntry st (qname ++ "_" ++ qtype)) (qname ++ "_" ++ qtype)
    with ⟨b, st1⟩
  have hs := (loopCheck_spec (logEntry st (qname ++ "_" ++ qtype)) (qname ++ "_" ++ qtype)).2.2
  rw [hlc] at hs
  have hb : b = false := by
    apply hs.mpr
    have he : qsCount (logEntry st (qname ++ "_" ++ qtype)) (qname ++ "_" ++ qtype)
        = qsCount st (qname ++ "_" ++ qtype) := rfl
    omega
  subst hb
  rfl

/-- Witness for C5: a non-cache-hit invocation of a pair whose counter already
reads 4 fails with `QueryLoop`. -/
theorem C5_loop_detection_witness :
    (queryWithCache ⟨fun _ _ => none, id, 0⟩ 1 "foo." "A" 0
        ⟨cacheEmpty, [("foo._A", 4)], []⟩).1 = .error .queryLoop := by
  have h := C5_loop_detection.2.1 ⟨fun _ _ => none, id, 0⟩ 0 "foo." "A" 0
    ⟨cacheEmpty, [("foo._A", 4)], []⟩ (by decide) (by decide) (by decide)
  rw [h]

/-- Network oracle for the C5 counterexample: every exchange succeeds with an
empty reply (an NXDOMAIN-shaped answer with no records at all). -/
def envC5 : Env := { net := fun _ _ => some {}, shuffle := id, now := 0 }

/-- Initial state for the C5 counterexample: the cache knows the `NS` record
of the `foo.` zone and the address of that nameserver, both far from expiry,
but no `A` record for `foo.` itself. -/
def stC5 : RState :=
  { store := ⟨[⟨⟨"foo.", typeNS, 60, "ns.foo."⟩, 1000 * second⟩,
              ⟨⟨"ns.foo.", typeA, 60, "1.2.3.4"⟩, 1000 * second⟩]⟩,
    qs := [], log := [] }

/-- C5 counterexample: the claim bounds the number of `queryWithCache`
invocations for one `(qname, qtype)` pair within one `Resolve` by 5.  Resolving
`(foo, A)` against a nameserver that keeps answering with empty replies enters
`queryWithCache` for the pair `foo._A` 11 times — once from `resolveWithContext`
and ten more times from its empty-answer retry loop (which ignores the
`QueryLoop` failures of the retries once the counter passed 4; the instrumentation
log records one key per invocation). -/
theorem C5_counterexample :
    (Resolve envC5 30 "foo" "A" stC5).2.log.count "foo._A" = 11 := by
  decide

/-! ## Claim C7 -/

/-- C7: `queryMultiple` launches `min MaxNameservers ns.length ≤ 4` single
queries against the shuffled nameserver list, and its selection loop — run
here on the arrival sequence of the launched tasks' replies — returns the
first received reply whose error is nil; when every launched task reports an
error it returns the last received reply (with its error), so a reply with a
non-nil error is surfaced only when every arrival carries an error. -/
theorem queryMultipleLoop_cons (count : Nat) (a : queryAnswer)
    (rest : List queryAnswer) :
    queryMultipleLoop count (a :: rest)
      = if a.err = none ∨ count - 1 = 0 then some a
        else queryMultipleLoop (count - 1) rest := rfl

theorem queryMultipleLoop_length_cons (a : queryAnswer) (rest : List queryAnswer) :
    queryMultipleLoop (a :: rest).length (a :: rest)
      = if a.err = none ∨ rest.length = 0 then some a
        else queryMultipleLoop rest.length rest := by
  rw [queryMultipleLoop_cons, List.length_cons, Nat.add_sub_cancel]

theorem C7_parallel_first_success :
    (∀ ns : List String, min MaxNameservers ns.length ≤ 4)
    ∧ (∀ arrivals : List queryAnswer,
        (∃ a ∈ arrivals, a.err = none) →
        queryMultipleLoop arrivals.length arrivals
          = arrivals.find? (fun a => a.err.isNone))
    ∧ (∀ arrivals : List queryAnswer, arrivals ≠ [] →
        (∀ a ∈ arrivals, a.err ≠ none) →
        queryMultipleLoop arrivals.length arrivals = arrivals.getLast?)
    ∧ (∀ (arrivals : List queryAnswer) (a : queryAnswer),
        queryMultipleLoop arrivals.length arrivals = some a → a.err ≠ none →
        ∀ b ∈ arrivals, b.err ≠ none) := by
  refine ⟨fun ns => min_le_left _ _, ?_, ?_, ?_⟩
  · intro arrivals
    induction arrivals with
    | nil => rintro ⟨a, ha, _⟩; cases ha
    | cons a rest ih =>
      rintro ⟨w, hw, hwerr⟩
      rw [queryMultipleLoop_length_cons]
      cases ha : a.err with
      | none => simp [List.find?, ha, Option.isNone]
      | some e =>
        have hwrest : w ∈ rest := by
          rcases List.mem_cons.mp hw with hwa | hwrest
          · rw [hwa, ha] at hwerr; cases hwerr
          · exact hwrest
        have hrest : rest ≠ [] := by
          intro hnil
          rw [hnil] at hwrest
          cases hwrest
        have hlen : ¬ ((some e : Option RErr) = none ∨ rest.length = 0) := by
          rintro (h | h)
          · cases h
          · exact hrest (List.eq_nil_of_length_eq_zero h)
        rw [if_neg hlen, ih ⟨w, hwrest, hwerr⟩]
        simp [List.find?, ha, Option.isNone]
  · intro arrivals
    induction arrivals with
    | nil => intro h; exact absurd rfl h
    | cons a rest ih =>
      intro _ hall
      have ha : a.err ≠ none := hall a (by simp)
      rw [queryMultipleLoop_length_cons]
      cases rest with
      | nil => simp
      | cons b rest2 =>
        have hlen : ¬ (a.err = none ∨ (b :: rest2).length = 0) := by
          rintro (h | h)
          · exact ha h
          · simp at h
        rw [if_neg hlen, ih (by simp) (fun x hx => hall x (by simp [hx]))]
        rfl
  · intro arrivals
    induction arrivals with
    | nil => intro a h; cases h
    | cons a rest ih =>
      intro w hw hwerr b hb
      rw [queryMultipleLoop_length_cons] at hw
      by_cases hcond : a.err = none ∨ rest.length = 0
      · rw [if_pos hcond] at hw
        have hwa : w = a := (Option.some.inj hw).symm
        rcases hcond with hnil | hlen0
        · exact absurd (hwa ▸ hnil) hwerr
        · have hrest : rest = [] := List.eq_nil_of_length_eq_zero hlen0
          subst hrest
          rcases List.mem_cons.mp hb with rfl | hbr
          · exact hwa ▸ hwerr
          · cases hbr
      · rw [if_neg hcond] at hw
        rcases List.mem_cons.mp hb with rfl | hbr
        · intro hbe
          exact hcond (Or.inl hbe)
        · exact ih w hw hwerr b hbr

/-- Witness for C7: with an error arriving first and a successful reply second,
the selection loop returns the successful reply. -/
theorem C7_parallel_first_success_witness :
    queryMultipleLoop 2 [⟨none, some .network, "a"⟩, ⟨some {}, none, "b"⟩]
      = some ⟨some {}, none, "b"⟩ := by
  have h := C7_parallel_first_success.2.1
    [⟨none, some .network, "a"⟩, ⟨some {}, none, "b"⟩]
    ⟨⟨some {}, none, "b"⟩, by simp, rfl⟩
  exact h.trans (by decide)

/-! ## Claim C8 -/

/-- C8: the recursion-desired flag of the question `querySingle` builds is set
exactly when the query type string is `NS` (the `SetQuestion` default and the
explicit clearing are both overridden only in the `NS` branch). -/
theorem C8_recursion_desired (qname qtype : String) :
    (querySingleMsg qname qtype).recursionDesired = true ↔ qtype = "NS" := by
  unfold querySingleMsg
  by_cases h : qtype = "NS" <;> simp [h]

/-! ## Claim C9 -/

/-- C9: a type string outside the `dns.StringToType` map (which reads as the
zero value 0) makes `querySingle` fall back to `dns.TypeA`: the question it
sends carries the numeric type `A` instead of the query failing. -/
theorem C9_unknown_type_defaults_to_A (qname qtype : String)
    (h : StringToType qtype = 0) :
    (querySingleMsg qname qtype).question.qtype = typeA := by
  have hns : ¬ qtype = "NS" := by
    intro he
    rw [he] at h
    simp [StringToType, typeNS] at h
  simp [querySingleMsg, h, hns]

/-- Witness for C9: the unknown type string `FOO` yields a question of type `A`. -/
theorem C9_unknown_type_defaults_to_A_witness :
    (querySingleMsg "x." "FOO").question.qtype = typeA :=
  C9_unknown_type_defaults_to_A "x." "FOO" (by decide)

/-! ## Claim C6 -/

theorem removeAtIndex_cons (a : RR) (l : List RR) (j : Nat) :
    removeAtIndex (a :: l) (j + 1) = a :: removeAtIndex l j := by
  simp [removeAtIndex]

theorem foldl_removeAtIndex_shift (js : List Nat) (a : RR) (l : List RR) :
    (js.map (fun j => j + 1)).foldl removeAtIndex (a :: l)
      = a :: js.foldl removeAtIndex l := by
  induction js generalizing l with
  | nil => rfl
  | cons j rest ih =>
    simp only [List.map_cons, List.foldl_cons, removeAtIndex_cons]
    exact ih (removeAtIndex l j)

/-- Deleting, from the highest index down, the positions whose element
satisfies `q` is the same as keeping the elements that do not satisfy `q`. -/
theorem foldl_remove_eq_filter (q : RR → Bool) (l : List RR) :
    ((l.enum.filter (fun pr => q pr.2)).map (fun pr => pr.1)).reverse.foldl
        removeAtIndex l
      = l.filter (fun a => !(q a)) := by
  induction l with
  | nil => rfl
  | cons a rest ih =>
    rw [List.enum_cons']
    have hshift : ((rest.enum.map (Prod.map (· + 1) id)).filter
          (fun pr => q pr.2)).map (fun pr => pr.1)
        = ((rest.enum.filter (fun pr => q pr.2)).map (fun pr => pr.1)).map
            (fun j => j + 1) := by
      rw [List.filter_map, List.map_map, List.map_map]
      rfl
    by_cases hq : q a
    · rw [List.filter_cons_of_pos (by simpa using hq)]
      rw [List.map_cons, hshift, List.reverse_cons, List.foldl_append]
      rw [← List.map_reverse, foldl_removeAtIndex_shift]
      rw [ih]
      simp [removeAtIndex, hq]
    · rw [List.filter_cons_of_neg (by simpa using hq)]
      rw [hshift, ← List.map_reverse, foldl_removeAtIndex_shift, ih]
      simp [hq]

/-- The answer-pruning step keeps a non-`NS` answer unconditionally and an
`NS` answer exactly when its rendered form contains the owner name of some
extra-section `A` record; the `ns` and `extra` sections are untouched. -/
theorem removeUnglued_spec (msg : Msg) :
    (removeUnglued msg).answer
      = msg.answer.filter (fun a => !(a.rrtype == typeNS)
          || (findNameOfA msg.extra).any (fun f => containsStr (rrString a) f))
    ∧ (removeUnglued msg).ns = msg.ns ∧ (removeUnglued msg).extra = msg.extra := by
  refine ⟨?_, rfl, rfl⟩
  unfold removeUnglued ungluedIndices
  dsimp only
  rw [foldl_remove_eq_filter
    (fun a => a.rrtype == typeNS
      && !((findNameOfA msg.extra).any (fun f => containsStr (rrString a) f)))
    msg.answer]
  apply List.filter_congr
  intro a _
  cases ha : a.rrtype == typeNS <;>
    cases hf : (findNameOfA msg.extra).any (fun f => containsStr (rrString a) f) <;>
    simp [ha, hf]

/-- The glue follow-up loop only ever appends to the extra section: the answer
and authority sections of the reply survive it unchanged. -/
theorem glueLoop_shape (env : Env) : ∀ (fuel : Nat) (ns : String)
    (targets : List String) (msg : Msg) (depth : Nat) (st : RState),
    (glueLoop env fuel ns targets msg depth st).1.answer = msg.answer
    ∧ (glueLoop env fuel ns targets msg depth st).1.ns = msg.ns
    ∧ ∃ ext, (glueLoop env fuel ns targets msg depth st).1.extra = msg.extra ++ ext := by
  intro fuel
  induction fuel with
  | zero =>
    intro ns targets msg depth st
    exact ⟨rfl, rfl, [], (List.append_nil msg.extra).symm⟩
  | succ fuel ih =>
    intro ns targets msg depth st
    rw [glueLoop_succ]
    cases targets with
    | nil => exact ⟨rfl, rfl, [], (List.append_nil msg.extra).symm⟩
    | cons qns rest =>
      dsimp only
      rcases h1 : querySingle env fuel ns qns "A" depth st with ⟨res, st2⟩
      cases res with
      | ok msg2 =>
        dsimp only
        rcases ih ns rest { msg with extra := msg.extra ++ msg2.answer } depth st2
          with ⟨ha, hn, ext, he⟩
        exact ⟨ha, hn, msg2.answer ++ ext, by rw [he]; simp⟩
      | error e =>
        dsimp only
        exact ih ns rest msg depth st2

/-- C6 (amended): the `NS` post-processing of `querySingleChan` behaves as
follows.  A non-`NS` query is returned untouched.  The glue follow-up queries
are issued only when the reply contains no `A` record at all — none in the
answer section and none in the extra section; an `A` record anywhere (even for
a name unrelated to the NS targets, contrary to the claim's trigger) skips
them.  When they run, an `A` query for every `NS` target (and `SOA` MNAME) of
the answer goes to the same nameserver, and each successful reply's whole
answer section is appended to the extra section, the answer and authority
sections surviving unchanged.  Afterwards — in either case — only when the
count of `A` records in the answer section differs from the count in the extra
section, every `NS` answer whose rendered text contains no owner name of an
extra-section `A` record is deleted (so with equal counts an unglued `NS`
answer survives, again contrary to the claim). -/
theorem C6_ns_postprocessing :
    (∀ (env : Env) (fuel : Nat) (ns qtype : String) (msg : Msg) (depth : Nat)
        (st : RState), qtype ≠ "NS" →
      nsPostProcess env (fuel + 1) ns qtype msg depth st = (msg, st))
    ∧ (∀ (env : Env) (fuel : Nat) (ns : String) (msg : Msg) (depth : Nat)
        (st : RState), findA msg.answer ≠ [] ∨ findA msg.extra ≠ [] →
      nsPostProcess env (fuel + 1) ns "NS" msg depth st
        = ((if (findA msg.answer).length ≠ (findA msg.extra).length
            then removeUnglued msg else msg), st))
    ∧ (∀ (env : Env) (fuel : Nat) (ns : String) (msg : Msg) (depth : Nat)
        (st : RState), findA msg.answer = [] → findA msg.extra = [] →
      nsPostProcess env (fuel + 1) ns "NS" msg depth st
        = ((if (findA (glueLoop env fuel ns (findNS msg.answer) msg depth st).1.answer).length
              ≠ (findA (glueLoop env fuel ns (findNS msg.answer) msg depth st).1.extra).length
            then removeUnglued (glueLoop env fuel ns (findNS msg.answer) msg depth st).1
            else (glueLoop env fuel ns (findNS msg.answer) msg depth st).1),
          (glueLoop env fuel ns (findNS msg.answer) msg depth st).2))
    ∧ (∀ (env : Env) (fuel : Nat) (ns : String) (targets : List String) (msg : Msg)
        (depth : Nat) (st : RState),
      (glueLoop env fuel ns targets msg depth st).1.answer = msg.answer
      ∧ (glueLoop env fuel ns targets msg depth st).1.ns = msg.ns
      ∧ ∃ ext, (glueLoop env fuel ns targets msg depth st).1.extra = msg.extra ++ ext)
    ∧ (∀ msg : Msg,
      (removeUnglued msg).answer
        = msg.answer.filter (fun a => !(a.rrtype == typeNS)
            || (findNameOfA msg.extra).any (fun f => containsStr (rrString a) f))
      ∧ (removeUnglued msg).ns = msg.ns ∧ (removeUnglued msg).extra = msg.extra) := by
  refine ⟨?_, ?_, ?_, fun env fuel => glueLoop_shape env fuel, removeUnglued_spec⟩
  · intro env fuel ns qtype msg depth st hq
    rw [nsPostProcess_succ]
    rw [if_neg (fun hc => hq hc.1)]
    dsimp only
    rw [if_neg (fun hc => hq hc.1)]
  · intro env fuel ns msg depth st h
    rw [nsPostProcess_succ]
    have hcond : ¬ (("NS" : String) = "NS" ∧ findA msg.answer = [] ∧ findA msg.extra = []) := by
      rintro ⟨-, ha, he⟩
      rcases h with h | h
      · exact h ha
      · exact h he
    rw [if_neg hcond]
    dsimp only
    by_cases hl : (findA msg.answer).length ≠ (findA msg.extra).length
    · rw [if_pos ⟨rfl, hl⟩, if_pos hl]
    · rw [if_neg (fun hc => hl hc.2), if_neg hl]
  · intro env fuel ns msg depth st ha he
    rw [nsPostProcess_succ]
    rw [if_pos ⟨rfl, ha, he⟩]
    rcases hg : glueLoop env fuel ns (findNS msg.answer) msg depth st with ⟨m2, st2⟩
    dsimp only
    by_cases hl : (findA m2.answer).length ≠ (findA m2.extra).length
    · rw [if_pos ⟨rfl, hl⟩, if_pos hl]
    · rw [if_neg (fun hc => hl hc.2), if_neg hl]

/-- Environment for the C6 counterexample: the nameserver at `9.9.9.9` would
answer the `A` question for the NS target `ns1.org.` with a glue record. -/
def envC6 : Env :=
  { net := fun _ q =>
      (if q.question.qname = "ns1.org." ∧ q.question.qtype = typeA then
        some { answer := [⟨"ns1.org.", typeA, 60, "5.5.5.5"⟩] }
      else some ({} : Msg)),
    shuffle := id, now := 0 }

/-- Reply for the C6 counterexample: an `NS` answer for `org.` with target
`ns1.org.`, no `A` record for that target anywhere, and an unrelated `A`
record in the extra section. -/
def msgC6 : Msg :=
  { answer := [⟨"org.", typeNS, 60, "ns1.org."⟩],
    extra := [⟨"unrelated.com.", typeA, 60, "9.9.9.9"⟩] }

/-- C6 counterexample: the reply `msgC6` has an `NS` record in its answer and
no `A` record for its target `ns1.org.` in the answer or additional section,
so the claim requires a follow-up `A` query to the same nameserver (which
`envC6` would answer with `5.5.5.5`) and the `NS` record retained with that
glue.  The code instead skips the follow-up — the unrelated `A` record makes
`len(findA(msg.Extra)) != 0` — and then deletes the `NS` record: the
post-processed reply has an empty answer and the extra section unchanged. -/
theorem C6_counterexample :
    nsPostProcess envC6 10 "9.9.9.9" "NS" msgC6 0 ⟨cacheEmpty, [], []⟩
      = ({ answer := [], ns := [], extra := [⟨"unrelated.com.", typeA, 60, "9.9.9.9"⟩] },
        ⟨cacheEmpty, [], []⟩) := by
  decide

/-- Witness for C6: on `msgC6` the post-processing takes the skip-glue branch
and prunes the unglued `NS` answer. -/
theorem C6_ns_postprocessing_witness :
    nsPostProcess envC6 1 "9.9.9.9" "NS" msgC6 0 ⟨cacheEmpty, [], []⟩
      = ((if (findA msgC6.answer).length ≠ (findA msgC6.extra).length
          then removeUnglued msgC6 else msgC6), ⟨cacheEmpty, [], []⟩) :=
  C6_ns_postprocessing.2.1 envC6 0 "9.9.9.9" msgC6 0 ⟨cacheEmpty, [], []⟩
    (Or.inr (by decide))

end Tinyresolver
